import Mathlib

/-!
# Grin stratum server: share validation and job repository

A shallow embedding of `src/grin/StratumServerGrin.cc`:

* `checkAndUpdateShare` grades one submitted share against the job it targets;
* `sendSolvedShare2Kafka` builds the record of a solved share and hands it to the
  outbound channel;
* `broadcastStratumJob` publishes a job into the repository's job table.

Conventions of the embedding.

* `uint64_t` values are natural numbers.  `checkAndUpdateShare` and
  `broadcastStratumJob` only compare and divide them, so no operation can wrap; every
  statement proved for all naturals holds in particular for all 64-bit values.  The one
  narrowing conversion of the file, from `uint64_t` to `int` in `sendSolvedShare2Kafka`,
  is explicit (`toInt`).
* A `shared_ptr<StratumJobEx>` is a reference (an index) into a store of handles, so
  that a flag set through one holder is seen by every other holder.
* Executions that the C++ standard leaves undefined and that stop the process on the
  target platform (dereferencing a null handle, copying from the null data pointer of an
  empty buffer, integer division by zero) are explicit results `Exec.crash`; no verdict is
  produced by such an execution.
* `memcpy` reads the number of bytes it is asked for, starting at the data pointer of the
  source buffer, whatever the length of that buffer is.  An empty decoded buffer owns no
  storage and its data pointer is null: a copy of one byte or more from it stops the
  process.  A copy from a buffer that is not empty but shorter than the number of bytes
  asked for runs past the end of the buffer and finds there the bytes that the memory
  holds, which are a parameter (`after`) of the functions that copy.
* An error raised by a callee and not caught is raised to the caller (`Call.raised`).
* The `dynamic_cast` of a handle's job to `StratumJobGrin` is taken to succeed: a handle
  of this repository wraps a `StratumJobGrin`.
* Logging statements have no effect on the share, the table or the control flow and are
  left out; the condition that guards the "high diff share" line is `highDiffShare`.
-/

namespace Grin

/-! ## Data model -/

/-- Values of the `StratumStatus` enum.  The enum is declared in a header that is not part
of the translated file: the five constants assigned by `checkAndUpdateShare` and the one
named in the comment of `broadcastStratumJob` are listed by name, every other constant of
the enum is `OTHER code`. -/
inductive StratumStatus where
  | ACCEPT
  | ACCEPT_STALE
  | SOLVED
  | JOB_NOT_FOUND
  | INVALID_SOLUTION
  | LOW_DIFFICULTY
  | OTHER (code : Nat)
  deriving DecidableEq, Repr

/-- The fields of the `ShareGrin` message that `checkAndUpdateShare` reads or writes. -/
structure ShareGrin where
  nonce : Nat
  edgebits : Nat
  height : Nat
  status : StratumStatus
  sharediff : Nat
  deriving DecidableEq, Repr

/-- Setter `share.set_status(s)`. -/
def ShareGrin.set_status (share : ShareGrin) (s : StratumStatus) : ShareGrin :=
  { share with status := s }

/-- Setter `share.set_sharediff(d)`. -/
def ShareGrin.set_sharediff (share : ShareGrin) (d : Nat) : ShareGrin :=
  { share with sharediff := d }

/-- The fields of `StratumJobGrin` used by the translated file. -/
structure StratumJobGrin where
  jobId_ : Nat
  nodeJobId_ : Nat
  height_ : Nat
  prePow_ : String
  difficulty_ : Nat
  deriving DecidableEq, Repr

/-- A job handle `StratumJobEx`: the job it wraps, the clean flag it was created with and
its stale flag (read by `isStale()`, set by `markStale()`). -/
structure StratumJobEx where
  sjob_ : StratumJobGrin
  isClean_ : Bool
  isStale : Bool
  deriving DecidableEq, Repr

/-- Method `markStale()`. -/
def StratumJobEx.markStale (ex : StratumJobEx) : StratumJobEx :=
  { ex with isStale := true }

/-- A `std::set<uint64_t>`: its elements in iteration order, which is strictly
increasing. -/
structure StdSet where
  elems : List Nat
  sorted : elems.Sorted (· < ·)

/-- Iteration from `rbegin()` to `rend()`: the elements from the greatest to the least. -/
def StdSet.rbegin_rend (s : StdSet) : List Nat :=
  s.elems.reverse

/-- The object filled by `memcpy(&preProof.prePow, ...)` and `preProof.nonce = ...`:
`prePow` is the run of bytes written by the copy, `nonce` the member as last assigned. -/
structure PreProofGrin where
  prePow : List Nat
  nonce : Nat
  deriving DecidableEq, Repr

/-- The parts of the program that `StratumServerGrin.cc` uses and that are declared
elsewhere: the hex decoder, the size of `PreProofGrin`, the proof verifier, the
difficulty formula and the accessor `prePow.secondaryScaling.value()`. -/
structure Primitives where
  ParseHex : String → List Nat
  sizeofPreProofGrin : Nat
  VerifyPowGrin : PreProofGrin → Nat → List Nat → Bool
  PowDifficultyGrin : Nat → Nat → Nat → List Nat → Nat
  secondaryScaling : List Nat → Nat

/-- The two policy flags of the server read by `checkAndUpdateShare`. -/
structure StratumServerGrin where
  isSubmitInvalidBlock_ : Bool
  isEnableSimulator_ : Bool
  deriving DecidableEq, Repr

/-- Why an execution stops without returning. -/
inductive Fault where
  | nullDereference
  | nullRead
  | divisionByZero
  deriving DecidableEq, Repr

/-- Result of running a function: it returns a value or the process stops. -/
inductive Exec (α : Type) where
  | ret (a : α)
  | crash (f : Fault)
  deriving DecidableEq, Repr

/-! ## `checkAndUpdateShare` -/

/-- The byte `memcpy` reads at offset `i` from `bin.data()`: the byte of the decoded buffer
when `i` is inside it, and otherwise whatever the memory after the buffer holds (`after k`
is the byte `k` places past the end of the buffer). -/
def readByte (bin : List Nat) (after : Nat → Nat) (i : Nat) : Nat :=
  if h : i < bin.length then bin.get ⟨i, h⟩ else after (i - bin.length)

/-- The offsets from `bin.data()` that `memcpy(dst, bin.data(), n)` reads, in order. -/
def memcpyOffsets (n : Nat) : List Nat :=
  List.range n

/-- The call `memcpy(dst, bin.data(), n)`.  The length of `bin` is not consulted.  When
`bin` is empty its data pointer is null, and reading one byte or more through it stops the
process; otherwise the call returns the `n` bytes written to `dst`, one for each offset
read. -/
def memcpy (bin : List Nat) (after : Nat → Nat) (n : Nat) : Exec (List Nat) :=
  if bin.isEmpty && decide (0 < n) then
    Exec.crash Fault.nullRead
  else
    Exec.ret ((memcpyOffsets n).map (readByte bin after))

/-- Lines 58-61: the verifier input built from the job's `prePow_` and the share's nonce. -/
def buildPreProof (P : Primitives) (after : Nat → Nat) (share : ShareGrin)
    (sjob : StratumJobGrin) : Exec PreProofGrin :=
  let bin := P.ParseHex sjob.prePow_
  match memcpy bin after P.sizeofPreProofGrin with
  | Exec.crash f => Exec.crash f
  | Exec.ret prePow => Exec.ret { prePow := prePow, nonce := share.nonce }

/-- Line 67: the share difficulty computed from a built pre-proof. -/
def powDifficultyOf (P : Primitives) (share : ShareGrin) (preProof : PreProofGrin)
    (proofs : List Nat) : Nat :=
  P.PowDifficultyGrin share.height share.edgebits (P.secondaryScaling preProof.prePow) proofs

/-- The share difficulty of a run that reaches line 67.  A run that stops in the copy of
line 60 computes none; 0 stands for it. -/
def shareDiffOf (P : Primitives) (after : Nat → Nat) (share : ShareGrin)
    (sjob : StratumJobGrin) (proofs : List Nat) : Nat :=
  match buildPreProof P after share sjob with
  | Exec.crash _ => 0
  | Exec.ret preProof => powDifficultyOf P share preProof proofs

/-- Line 71: the condition of the "high diff share" log line. -/
def highDiffShare (shareDiff difficulty_ : Nat) : Bool :=
  decide (shareDiff / difficulty_ ≥ 1024)

/-- Lines 86-98: the loop over `jobDiffs` from `rbegin()` to `rend()` and the statement
after it.  The argument is the part of the ladder not yet visited. -/
def scanLadder (isEnableSimulator_ : Bool) (shareDiff : Nat) (share : ShareGrin) :
    List Nat → ShareGrin
  | [] => share.set_status StratumStatus.LOW_DIFFICULTY
  | jobDiff :: rest =>
    if isEnableSimulator_ || decide (shareDiff ≥ jobDiff) then
      (share.set_sharediff jobDiff).set_status StratumStatus.ACCEPT
    else
      scanLadder isEnableSimulator_ shareDiff share rest

/-- `StratumServerGrin::checkAndUpdateShare`.  The handle `exjob` is `none` for a null
`shared_ptr`; `after` is the memory that follows the decoded `prePow_` buffer. -/
def checkAndUpdateShare (P : Primitives) (srv : StratumServerGrin) (after : Nat → Nat)
    (share : ShareGrin) (exjob : Option StratumJobEx) (proofs : List Nat)
    (jobDiffs : StdSet) : Exec ShareGrin :=
  match exjob with
  | none => Exec.crash Fault.nullDereference
  | some ex =>
    let sjob := ex.sjob_
    if ex.isStale then
      Exec.ret (share.set_status StratumStatus.JOB_NOT_FOUND)
    else
      match buildPreProof P after share sjob with
      | Exec.crash f => Exec.crash f
      | Exec.ret preProof =>
        if !P.VerifyPowGrin preProof share.edgebits proofs then
          Exec.ret (share.set_status StratumStatus.INVALID_SOLUTION)
        else
          let shareDiff := powDifficultyOf P share preProof proofs
          if sjob.difficulty_ = 0 then
            Exec.crash Fault.divisionByZero
          else if srv.isSubmitInvalidBlock_ || decide (shareDiff ≥ sjob.difficulty_) then
            Exec.ret (share.set_status StratumStatus.SOLVED)
          else
            Exec.ret (scanLadder srv.isEnableSimulator_ shareDiff share jobDiffs.rbegin_rend)

/-- The proof of a share verifies against a job: the run reaches `VerifyPowGrin`, which
returns true on the input that `checkAndUpdateShare` builds. -/
def proofVerifies (P : Primitives) (after : Nat → Nat) (share : ShareGrin)
    (sjob : StratumJobGrin) (proofs : List Nat) : Bool :=
  match buildPreProof P after share sjob with
  | Exec.crash _ => false
  | Exec.ret preProof => P.VerifyPowGrin preProof share.edgebits proofs

/-! ### The calls made on the share -/

/-- A call of a setter of the share. -/
inductive ShareWrite where
  | set_status (s : StratumStatus)
  | set_sharediff (d : Nat)
  deriving DecidableEq, Repr

/-- The effect of one setter call on a share. -/
def ShareWrite.apply (share : ShareGrin) : ShareWrite → ShareGrin
  | ShareWrite.set_status s => share.set_status s
  | ShareWrite.set_sharediff d => share.set_sharediff d

/-- The statuses passed to `set_status` in a sequence of setter calls, in order. -/
def statusWrites : List ShareWrite → List StratumStatus
  | [] => []
  | ShareWrite.set_status s :: ws => s :: statusWrites ws
  | ShareWrite.set_sharediff _ :: ws => statusWrites ws

/-- The setter calls made by the loop of lines 86-98, in program order. -/
def scanLadderWrites (isEnableSimulator_ : Bool) (shareDiff : Nat) :
    List Nat → List ShareWrite
  | [] => [ShareWrite.set_status StratumStatus.LOW_DIFFICULTY]
  | jobDiff :: rest =>
    if isEnableSimulator_ || decide (shareDiff ≥ jobDiff) then
      [ShareWrite.set_sharediff jobDiff, ShareWrite.set_status StratumStatus.ACCEPT]
    else
      scanLadderWrites isEnableSimulator_ shareDiff rest

/-- The setter calls made on the share by one run of `checkAndUpdateShare`, in program
order: the same control flow as `checkAndUpdateShare`, recording each call instead of
performing it. -/
def checkAndUpdateShareWrites (P : Primitives) (srv : StratumServerGrin)
    (after : Nat → Nat) (share : ShareGrin) (exjob : Option StratumJobEx)
    (proofs : List Nat) (jobDiffs : StdSet) : Exec (List ShareWrite) :=
  match exjob with
  | none => Exec.crash Fault.nullDereference
  | some ex =>
    let sjob := ex.sjob_
    if ex.isStale then
      Exec.ret [ShareWrite.set_status StratumStatus.JOB_NOT_FOUND]
    else
      match buildPreProof P after share sjob with
      | Exec.crash f => Exec.crash f
      | Exec.ret preProof =>
        if !P.VerifyPowGrin preProof share.edgebits proofs then
          Exec.ret [ShareWrite.set_status StratumStatus.INVALID_SOLUTION]
        else
          let shareDiff := powDifficultyOf P share preProof proofs
          if sjob.difficulty_ = 0 then
            Exec.crash Fault.divisionByZero
          else if srv.isSubmitInvalidBlock_ || decide (shareDiff ≥ sjob.difficulty_) then
            Exec.ret [ShareWrite.set_status StratumStatus.SOLVED]
          else
            Exec.ret (scanLadderWrites srv.isEnableSimulator_ shareDiff jobDiffs.rbegin_rend)

/-! ## The job repository -/

/-- Modelled from the spec: `JobRepositoryBase::createStratumJobEx`, declared outside the
translated file.  It wraps the job in a new handle that carries the clean flag and is not
stale (the stale flag only ever goes from false to true). -/
def createStratumJobEx (sjob : StratumJobGrin) (isClean : Bool) : StratumJobEx :=
  { sjob_ := sjob, isClean_ := isClean, isStale := false }

/-- The state of a `JobRepositoryGrin`.

* `lastHeight_`: the member of that name;
* `exJobs_`: the `std::map` from job id to handle, as its entries in key order, each
  handle being a reference into `handles`;
* `handles`: every `StratumJobEx` created so far; the reference of a handle is its
  position, and a handle stays in the store when the table drops it, as it does for any
  holder of the `shared_ptr`;
* `notified`: the handles passed to `sendMiningNotify`, in call order. -/
structure JobRepositoryGrin where
  lastHeight_ : Nat
  exJobs_ : List (Nat × Nat)
  handles : List StratumJobEx
  notified : List Nat
  deriving DecidableEq, Repr

/-- The repository as the constructor leaves it: `lastHeight_{0}` and an empty table. -/
def JobRepositoryGrin.init : JobRepositoryGrin :=
  { lastHeight_ := 0, exJobs_ := [], handles := [], notified := [] }

/-- Assignment `m[k] = v` on a `std::map` kept as its entries in key order: the value of
an existing key is replaced, a new key is inserted at its place. -/
def mapAssign : List (Nat × Nat) → Nat → Nat → List (Nat × Nat)
  | [], k, v => [(k, v)]
  | (k1, v1) :: rest, k, v =>
    if k < k1 then (k, v) :: (k1, v1) :: rest
    else if k = k1 then (k, v) :: rest
    else (k1, v1) :: mapAssign rest k v

/-- Lookup `m.find(k)` on a `std::map` kept as its entries. -/
def mapFind : List (Nat × Nat) → Nat → Option Nat
  | [], _ => none
  | (k1, v1) :: rest, k => if k = k1 then some v1 else mapFind rest k

/-- The call `p->markStale()` through the reference `r`. -/
def markStaleAt : List StratumJobEx → Nat → List StratumJobEx
  | [], _ => []
  | ex :: rest, 0 => ex.markStale :: rest
  | ex :: rest, r + 1 => ex :: markStaleAt rest r

/-- Lines 183-185: `for (auto it : exJobs_) it.second->markStale();`. -/
def markAllStale (exJobs : List (Nat × Nat)) (handles : List StratumJobEx) :
    List StratumJobEx :=
  exJobs.foldl (fun hs it => markStaleAt hs it.2) handles

/-- `JobRepositoryGrin::broadcastStratumJob`. -/
def broadcastStratumJob (repo : JobRepositoryGrin) (sjobGrin : StratumJobGrin) :
    JobRepositoryGrin :=
  let isClean := decide (sjobGrin.height_ ≠ repo.lastHeight_)
  let lastHeight := if isClean then sjobGrin.height_ else repo.lastHeight_
  let exJob := repo.handles.length
  let handles := repo.handles ++ [createStratumJobEx sjobGrin isClean]
  let handles := if isClean then markAllStale repo.exJobs_ handles else handles
  { lastHeight_ := lastHeight
    exJobs_ := mapAssign repo.exJobs_ sjobGrin.jobId_ exJob
    handles := handles
    notified := repo.notified ++ [exJob] }

/-- A sequence of `broadcastStratumJob` calls, in order. -/
def publishAll (repo : JobRepositoryGrin) (jobs : List StratumJobGrin) : JobRepositoryGrin :=
  jobs.foldl broadcastStratumJob repo

/-- The stale flag read through the reference `r`, if `r` refers to a handle. -/
def JobRepositoryGrin.isStaleAt (repo : JobRepositoryGrin) (r : Nat) : Option Bool :=
  repo.handles[r]?.map StratumJobEx.isStale

/-- Every reference held by the table refers to a handle of the store.  A table of
`shared_ptr` always satisfies this: an entry keeps its handle alive. -/
def JobRepositoryGrin.WellFormed (repo : JobRepositoryGrin) : Bool :=
  repo.exJobs_.all (fun e => decide (e.2 < repo.handles.length))

/-- The states a repository can be in: the initial one and those obtained by publishing. -/
inductive Reachable : JobRepositoryGrin → Prop where
  | init : Reachable JobRepositoryGrin.init
  | publish (repo : JobRepositoryGrin) (sjob : StratumJobGrin) :
      Reachable repo → Reachable (broadcastStratumJob repo sjob)

/-- A job with the given id and height. -/
def jobAt (jobId height : Nat) : StratumJobGrin :=
  { jobId_ := jobId, nodeJobId_ := jobId, height_ := height, prePow_ := "", difficulty_ := 1000 }

/-! ## The source offsets of the header copy -/

/-- The offsets read by the copy of line 60 that lie past the end of the decoded buffer. -/
def offsetsPastEnd (P : Primitives) (sjob : StratumJobGrin) : List Nat :=
  (memcpyOffsets P.sizeofPreProofGrin).filter
    (fun i => decide ((P.ParseHex sjob.prePow_).length ≤ i))

/-! ## `sendSolvedShare2Kafka` -/

/-- The conversion of a `uint64_t` to `int` (32 bits, two's complement) made when an
element of the proof is passed to the parameter `int b` of the lambda of line 113. -/
def toInt (b : Nat) : Int :=
  if b % 2 ^ 32 < 2 ^ 31 then Int.ofNat (b % 2 ^ 32) else Int.ofNat (b % 2 ^ 32) - 2 ^ 32

/-- Lines 107-114: the text `proofArray`.  It is empty for an empty proof; otherwise
`std::accumulate` starts from `std::to_string(proofs.front())`, a `uint64_t`, and appends
`"," + std::to_string(b)` for each later element, received as `int b`. -/
def proofArray (proofs : List Nat) : String :=
  match proofs with
  | [] => ""
  | front :: rest => rest.foldl (fun a b => a ++ "," ++ toString (toInt b)) (toString front)

/-- The encoding that the specification asks for: the decimal representations of the
elements, in their order, joined by commas. -/
def commaJoinedDecimals (proofs : List Nat) : String :=
  ",".intercalate (proofs.map toString)

/-- The fields of `StratumWorker` read by `sendSolvedShare2Kafka`. -/
structure StratumWorker where
  userId_ : Int
  workerHashId_ : Int
  fullName_ : String
  deriving DecidableEq, Repr

/-- Lines 117-136: the record `msg`.  `filterWorkerName` is declared outside the
translated file and is a parameter. -/
def solvedShareMsg (filterWorkerName : String → String) (share : ShareGrin)
    (sjob : StratumJobGrin) (proofs : List Nat) (worker : StratumWorker) : String :=
  "\x7b\"jobId\":" ++ toString sjob.jobId_ ++
  ",\"nodeJobId\":" ++ toString sjob.nodeJobId_ ++
  ",\"height\":" ++ toString sjob.height_ ++
  ",\"edgeBits\":" ++ toString share.edgebits ++
  ",\"nonce\":" ++ toString share.nonce ++
  ",\"proofs\":[" ++ proofArray proofs ++ "]" ++
  ",\"userId\":" ++ toString worker.userId_ ++
  ",\"workerId\":" ++ toString worker.workerHashId_ ++
  ",\"workerFullName\":\"" ++ filterWorkerName worker.fullName_ ++ "\"" ++
  "\x7d"

/-- An error raised to the caller of a function. -/
inductive Error where
  | PublishFailure
  deriving DecidableEq, Repr

/-- What the caller of a function that can raise an error observes: the function returns
a value, it raises an error, or the process stops. -/
inductive Call (α : Type) where
  | returned (a : α)
  | raised (e : Error)
  | crash (f : Fault)
  deriving DecidableEq, Repr

/-- The state within reach of the member function `sendSolvedShare2Kafka`: the job
repository of the chain, the records passed to `ServerBase::sendSolvedShare2Kafka` so far
(in call order) and the records that the outbound channel has taken. -/
structure ServerState where
  repo : JobRepositoryGrin
  handOffs : List String
  channel : List String
  deriving DecidableEq, Repr

/-- Modelled from the spec: `ServerBase::sendSolvedShare2Kafka`, declared outside the
translated file.  It hands one record to the outbound channel.  The hand-off succeeds or
fails (`accepts` tells which): on success the record is on the channel and the call
returns; a failure is surfaced to the caller as the error `PublishFailure`, not swallowed,
and the record is not on the channel.  The job repository is not touched. -/
def ServerBase_sendSolvedShare2Kafka (accepts : String → Bool) (st : ServerState)
    (data : String) : Call Unit × ServerState :=
  if accepts data then
    (Call.returned (),
      { st with handOffs := st.handOffs ++ [data], channel := st.channel ++ [data] })
  else
    (Call.raised Error.PublishFailure, { st with handOffs := st.handOffs ++ [data] })

/-- What a call of `sendSolvedShare2Kafka` leaves: what its caller observes, the state
within reach of the function and the share it was given. -/
structure SendResult where
  outcome : Call Unit
  state : ServerState
  share : ShareGrin
  deriving DecidableEq, Repr

/-- `StratumServerGrin::sendSolvedShare2Kafka`.  The function builds the record and ends
with the call of `ServerBase::sendSolvedShare2Kafka` (line 137), around which there is no
`try`: it returns when that call returns, and an error raised by that call is raised to
its own caller.  The share is a `const` reference and is given back as it was. -/
def sendSolvedShare2Kafka (filterWorkerName : String → String) (accepts : String → Bool)
    (st : ServerState) (share : ShareGrin) (exjob : Option StratumJobEx)
    (proofs : List Nat) (worker : StratumWorker) : SendResult :=
  match exjob with
  | none => { outcome := Call.crash Fault.nullDereference, state := st, share := share }
  | some ex =>
    let sjob := ex.sjob_
    let msg := solvedShareMsg filterWorkerName share sjob proofs worker
    let handOff := ServerBase_sendSolvedShare2Kafka accepts st msg
    { outcome := handOff.1, state := handOff.2, share := share }

/-! ### Sample inputs -/

/-- Primitives of a test bench: the decoder yields no byte, the verifier accepts exactly
the proofs with 42 elements and the difficulty of a proof is its first element. -/
def benchPrimitives : Primitives where
  ParseHex := fun _ => []
  sizeofPreProofGrin := 0
  VerifyPowGrin := fun _ _ proofs => decide (proofs.length = 42)
  PowDifficultyGrin := fun _ _ _ proofs => proofs.headD 0
  secondaryScaling := fun _ => 0

/-- A proof of 42 elements whose difficulty under `benchPrimitives` is `d`. -/
def benchProof (d : Nat) : List Nat :=
  d :: List.replicate 41 0

/-- A server with both policy flags off. -/
def plainServer : StratumServerGrin :=
  { isSubmitInvalidBlock_ := false, isEnableSimulator_ := false }

/-- A share as submitted, before grading. -/
def freshShare : ShareGrin :=
  { nonce := 7, edgebits := 29, height := 5, status := StratumStatus.OTHER 0, sharediff := 0 }

/-- A job at height 5 with network difficulty `d`. -/
def benchJob (d : Nat) : StratumJobGrin :=
  { jobId_ := 1, nodeJobId_ := 1, height_ := 5, prePow_ := "", difficulty_ := d }

/-- The ladder {100, 500, 2000}. -/
def ladder3 : StdSet :=
  ⟨[100, 500, 2000], by decide⟩

/-- The ladder {10, 100}. -/
def ladder2 : StdSet :=
  ⟨[10, 100], by decide⟩

/-- A memory that holds zero bytes after every buffer. -/
def zeroMemory : Nat → Nat :=
  fun _ => 0


/-- The value of a hexadecimal digit. -/
def hexValue (c : Char) : Option Nat :=
  if '0' ≤ c ∧ c ≤ '9' then some (c.toNat - 48)
  else if 'a' ≤ c ∧ c ≤ 'f' then some (c.toNat - 87)
  else if 'A' ≤ c ∧ c ≤ 'F' then some (c.toNat - 55)
  else none

/-- A hex decoder for the test bench: one byte for each pair of hexadecimal digits, up to
the first character that is not one. -/
def decodeHex : List Char → List Nat
  | c1 :: c2 :: rest =>
    match hexValue c1, hexValue c2 with
    | some hi, some lo => (16 * hi + lo) :: decodeHex rest
    | _, _ => []
  | _ => []

/-- Primitives of a second test bench: a hex decoder, a pre-proof of 4 bytes, a verifier
that accepts exactly the pre-proofs whose bytes are 1, 2, 3, 4, and a difficulty that is
the first element of the proof. -/
def overreadPrimitives : Primitives where
  ParseHex := fun text => decodeHex text.toList
  sizeofPreProofGrin := 4
  VerifyPowGrin := fun preProof _ _ => decide (preProof.prePow = [1, 2, 3, 4])
  PowDifficultyGrin := fun _ _ _ proofs => proofs.headD 0
  secondaryScaling := fun _ => 0

/-- A job at height 5 with network difficulty 1000 whose `prePow_` is the given text. -/
def headerJob (prePow : String) : StratumJobGrin :=
  { jobId_ := 1, nodeJobId_ := 1, height_ := 5, prePow_ := prePow, difficulty_ := 1000 }

/-- A memory that holds the bytes 3, 4, 5, ... after every buffer. -/
def countingMemory : Nat → Nat :=
  fun k => k + 3

/-- A server state: the repository after two publishes and an outbound channel that holds
one earlier record. -/
def benchState : ServerState :=
  { repo := publishAll JobRepositoryGrin.init [jobAt 1 4, jobAt 2 5]
    handOffs := ["earlier"]
    channel := ["earlier"] }

/-- Primitives of a third test bench: as `benchPrimitives`, with a difficulty that is the
first element of the proof when the height passed is 5 and 0 otherwise. -/
def heightPrimitives : Primitives where
  ParseHex := fun _ => []
  sizeofPreProofGrin := 0
  VerifyPowGrin := fun _ _ proofs => decide (proofs.length = 42)
  PowDifficultyGrin := fun height _ _ proofs => if height = 5 then proofs.headD 0 else 0
  secondaryScaling := fun _ => 0

/-- A worker. -/
def benchWorker : StratumWorker :=
  { userId_ := 3, workerHashId_ := -8, fullName_ := "alice.rig" }

/-! ## Lemmas on the ladder scan -/

theorem scanLadder_status (sim : Bool) (shareDiff : Nat) (share : ShareGrin) (l : List Nat) :
    (scanLadder sim shareDiff share l).status = StratumStatus.ACCEPT ∨
      (scanLadder sim shareDiff share l).status = StratumStatus.LOW_DIFFICULTY := by
  induction l with
  | nil => right; rfl
  | cons d rest ih =>
    unfold scanLadder
    split
    · left; rfl
    · exact ih

theorem scanLadder_low_iff (shareDiff : Nat) (share : ShareGrin) (l : List Nat) :
    (scanLadder false shareDiff share l).status = StratumStatus.LOW_DIFFICULTY ↔
      ∀ d ∈ l, shareDiff < d := by
  induction l with
  | nil => simp [scanLadder, ShareGrin.set_status]
  | cons d rest ih =>
    unfold scanLadder
    by_cases h : shareDiff ≥ d
    · simp [h, ShareGrin.set_status, ShareGrin.set_sharediff]
    · simp [h, ih]
      omega

theorem scanLadder_greatest (shareDiff : Nat) (share : ShareGrin) (l : List Nat)
    (hsorted : l.Sorted (· > ·)) (hex : ∃ d ∈ l, d ≤ shareDiff) :
    ∃ d, d ∈ l ∧ d ≤ shareDiff ∧ (∀ d1 ∈ l, d1 ≤ shareDiff → d1 ≤ d) ∧
      scanLadder false shareDiff share l =
        { share with status := StratumStatus.ACCEPT, sharediff := d } := by
  induction l with
  | nil => simp at hex
  | cons d rest ih =>
    unfold scanLadder
    have hs := List.sorted_cons.mp hsorted
    by_cases h : shareDiff ≥ d
    · refine ⟨d, by simp, h, ?_, by simp [h, ShareGrin.set_status, ShareGrin.set_sharediff]⟩
      intro d1 hd1 _
      rcases List.mem_cons.mp hd1 with rfl | hmem
      · exact le_refl _
      · exact le_of_lt (hs.1 d1 hmem)
    · have hex2 : ∃ d0 ∈ rest, d0 ≤ shareDiff := by
        obtain ⟨d0, hd0, hle⟩ := hex
        rcases List.mem_cons.mp hd0 with rfl | hmem
        · exact absurd hle h
        · exact ⟨d0, hmem, hle⟩
      obtain ⟨d0, hmem, hle, hmax, heq⟩ := ih hs.2 hex2
      refine ⟨d0, List.mem_cons_of_mem _ hmem, hle, ?_, by simp [h, heq]⟩
      intro d1 hd1 hle1
      rcases List.mem_cons.mp hd1 with rfl | hmem1
      · exact absurd hle1 h
      · exact hmax d1 hmem1 hle1

theorem StdSet.rbegin_rend_sorted (s : StdSet) : s.rbegin_rend.Sorted (· > ·) := by
  unfold StdSet.rbegin_rend
  exact List.pairwise_reverse.mpr s.sorted

theorem StdSet.mem_rbegin_rend (s : StdSet) (d : Nat) : d ∈ s.rbegin_rend ↔ d ∈ s.elems := by
  simp [StdSet.rbegin_rend]

/-- When the proof verifies, the copy of line 60 has completed, the verifier has returned
true on the pre-proof built, and the share difficulty is the one of that pre-proof. -/
theorem proofVerifies_copy (P : Primitives) (after : Nat → Nat) (share : ShareGrin)
    (sjob : StratumJobGrin) (proofs : List Nat)
    (h : proofVerifies P after share sjob proofs = true) :
    ∃ preProof, buildPreProof P after share sjob = Exec.ret preProof ∧
      P.VerifyPowGrin preProof share.edgebits proofs = true ∧
      shareDiffOf P after share sjob proofs = powDifficultyOf P share preProof proofs := by
  unfold proofVerifies at h
  unfold shareDiffOf
  cases hb : buildPreProof P after share sjob with
  | crash f =>
    rw [hb] at h
    cases h
  | ret preProof =>
    rw [hb] at h
    exact ⟨preProof, rfl, h, rfl⟩

/-- The copy of line 60 completes exactly when the decoded buffer is not empty or no byte
is asked for. -/
theorem buildPreProof_returns_iff (P : Primitives) (after : Nat → Nat) (share : ShareGrin)
    (sjob : StratumJobGrin) :
    (∃ preProof, buildPreProof P after share sjob = Exec.ret preProof) ↔
      (P.ParseHex sjob.prePow_ ≠ [] ∨ P.sizeofPreProofGrin = 0) := by
  unfold buildPreProof memcpy
  by_cases h1 : P.ParseHex sjob.prePow_ = []
  · by_cases h2 : P.sizeofPreProofGrin = 0
    · simp [h1, h2]
    · have h3 : 0 < P.sizeofPreProofGrin := by omega
      simp [h1, h2, h3]
  · cases hb : P.ParseHex sjob.prePow_ with
    | nil => exact absurd hb h1
    | cons b bs => simp

/-- The call on a fresh handle when the proof verifies: the division of line 71, the
SOLVED rule and the ladder scan. -/
theorem checkAndUpdateShare_verified (P : Primitives) (srv : StratumServerGrin)
    (after : Nat → Nat) (share : ShareGrin) (ex : StratumJobEx) (proofs : List Nat)
    (jobDiffs : StdSet) (hfresh : ex.isStale = false)
    (hverify : proofVerifies P after share ex.sjob_ proofs = true) :
    checkAndUpdateShare P srv after share (some ex) proofs jobDiffs =
      if ex.sjob_.difficulty_ = 0 then Exec.crash Fault.divisionByZero
      else if srv.isSubmitInvalidBlock_ ||
          decide (shareDiffOf P after share ex.sjob_ proofs ≥ ex.sjob_.difficulty_) then
        Exec.ret (share.set_status StratumStatus.SOLVED)
      else
        Exec.ret (scanLadder srv.isEnableSimulator_ (shareDiffOf P after share ex.sjob_ proofs)
          share jobDiffs.rbegin_rend) := by
  obtain ⟨preProof, hb, hv, hd⟩ := proofVerifies_copy P after share ex.sjob_ proofs hverify
  simp only [checkAndUpdateShare, hfresh, hb, hv, hd]
  simp

/-- The setter calls of the call on a fresh handle when the proof verifies. -/
theorem checkAndUpdateShareWrites_verified (P : Primitives) (srv : StratumServerGrin)
    (after : Nat → Nat) (share : ShareGrin) (ex : StratumJobEx) (proofs : List Nat)
    (jobDiffs : StdSet) (hfresh : ex.isStale = false)
    (hverify : proofVerifies P after share ex.sjob_ proofs = true) :
    checkAndUpdateShareWrites P srv after share (some ex) proofs jobDiffs =
      if ex.sjob_.difficulty_ = 0 then Exec.crash Fault.divisionByZero
      else if srv.isSubmitInvalidBlock_ ||
          decide (shareDiffOf P after share ex.sjob_ proofs ≥ ex.sjob_.difficulty_) then
        Exec.ret [ShareWrite.set_status StratumStatus.SOLVED]
      else
        Exec.ret (scanLadderWrites srv.isEnableSimulator_
          (shareDiffOf P after share ex.sjob_ proofs) jobDiffs.rbegin_rend) := by
  obtain ⟨preProof, hb, hv, hd⟩ := proofVerifies_copy P after share ex.sjob_ proofs hverify
  simp only [checkAndUpdateShareWrites, hfresh, hb, hv, hd]
  simp

/-- The call on a fresh handle when the copy of line 60 has completed and the verifier
returns false on the pre-proof built. -/
theorem checkAndUpdateShare_rejected (P : Primitives) (srv : StratumServerGrin)
    (after : Nat → Nat) (share : ShareGrin) (ex : StratumJobEx) (proofs : List Nat)
    (jobDiffs : StdSet) (preProof : PreProofGrin) (hfresh : ex.isStale = false)
    (hb : buildPreProof P after share ex.sjob_ = Exec.ret preProof)
    (hv : P.VerifyPowGrin preProof share.edgebits proofs = false) :
    checkAndUpdateShare P srv after share (some ex) proofs jobDiffs =
        Exec.ret (share.set_status StratumStatus.INVALID_SOLUTION) ∧
      checkAndUpdateShareWrites P srv after share (some ex) proofs jobDiffs =
        Exec.ret [ShareWrite.set_status StratumStatus.INVALID_SOLUTION] := by
  constructor
  · simp only [checkAndUpdateShare, hfresh, hb, hv]
    simp
  · simp only [checkAndUpdateShareWrites, hfresh, hb, hv]
    simp

/-- The call on a fresh handle when the copy of line 60 stops the process. -/
theorem checkAndUpdateShare_copy_crash (P : Primitives) (srv : StratumServerGrin)
    (after : Nat → Nat) (share : ShareGrin) (ex : StratumJobEx) (proofs : List Nat)
    (jobDiffs : StdSet) (f : Fault) (hfresh : ex.isStale = false)
    (hb : buildPreProof P after share ex.sjob_ = Exec.crash f) :
    checkAndUpdateShare P srv after share (some ex) proofs jobDiffs = Exec.crash f ∧
      checkAndUpdateShareWrites P srv after share (some ex) proofs jobDiffs = Exec.crash f := by
  constructor
  · simp only [checkAndUpdateShare, hfresh, hb]
    simp
  · simp only [checkAndUpdateShareWrites, hfresh, hb]
    simp

/-- When the handle is present and fresh, the proof verifies, the network difficulty is
not zero, the accept-all-as-solved flag is off and the share difficulty is below the
network difficulty, the call returns what the ladder scan produces. -/
theorem checkAndUpdateShare_reaches_scan (P : Primitives) (srv : StratumServerGrin)
    (after : Nat → Nat) (share : ShareGrin) (ex : StratumJobEx) (proofs : List Nat)
    (jobDiffs : StdSet) (hfresh : ex.isStale = false)
    (hverify : proofVerifies P after share ex.sjob_ proofs = true)
    (hflag : srv.isSubmitInvalidBlock_ = false)
    (hlt : shareDiffOf P after share ex.sjob_ proofs < ex.sjob_.difficulty_) :
    checkAndUpdateShare P srv after share (some ex) proofs jobDiffs =
      Exec.ret (scanLadder srv.isEnableSimulator_ (shareDiffOf P after share ex.sjob_ proofs)
        share jobDiffs.rbegin_rend) := by
  have hne : ex.sjob_.difficulty_ ≠ 0 := by omega
  have hnot : ¬ shareDiffOf P after share ex.sjob_ proofs ≥ ex.sjob_.difficulty_ := by omega
  rw [checkAndUpdateShare_verified P srv after share ex proofs jobDiffs hfresh hverify]
  simp [hflag, hne, hnot]


/-! ## Share validation: the verdict rules -/

/-- C1 (ladder ordering law).  For a fresh handle, a share whose proof verifies, both
policy flags off, a share difficulty below the network difficulty and a ladder holding at
least one threshold not above the share difficulty, the call returns the share with status
`ACCEPT` and with `sharediff` set to the greatest threshold of the ladder that is not
above the share difficulty; no other field of the share differs. -/
theorem checkAndUpdateShare_ladder_greatest (P : Primitives) (srv : StratumServerGrin)
    (after : Nat → Nat) (share : ShareGrin) (ex : StratumJobEx) (proofs : List Nat)
    (jobDiffs : StdSet) (hfresh : ex.isStale = false)
    (hverify : proofVerifies P after share ex.sjob_ proofs = true)
    (hflag : srv.isSubmitInvalidBlock_ = false) (hsim : srv.isEnableSimulator_ = false)
    (hlt : shareDiffOf P after share ex.sjob_ proofs < ex.sjob_.difficulty_)
    (hex : ∃ d ∈ jobDiffs.elems, d ≤ shareDiffOf P after share ex.sjob_ proofs) :
    ∃ d, d ∈ jobDiffs.elems ∧ d ≤ shareDiffOf P after share ex.sjob_ proofs ∧
      (∀ d1 ∈ jobDiffs.elems, d1 ≤ shareDiffOf P after share ex.sjob_ proofs → d1 ≤ d) ∧
      checkAndUpdateShare P srv after share (some ex) proofs jobDiffs =
        Exec.ret { share with status := StratumStatus.ACCEPT, sharediff := d } := by
  have hex2 : ∃ d ∈ jobDiffs.rbegin_rend, d ≤ shareDiffOf P after share ex.sjob_ proofs := by
    obtain ⟨d, hd, hle⟩ := hex
    exact ⟨d, (jobDiffs.mem_rbegin_rend d).mpr hd, hle⟩
  obtain ⟨d, hmem, hle, hmax, heq⟩ :=
    scanLadder_greatest (shareDiffOf P after share ex.sjob_ proofs) share
      jobDiffs.rbegin_rend jobDiffs.rbegin_rend_sorted hex2
  refine ⟨d, (jobDiffs.mem_rbegin_rend d).mp hmem, hle, ?_, ?_⟩
  · intro d1 hd1 hle1
    exact hmax d1 ((jobDiffs.mem_rbegin_rend d1).mpr hd1) hle1
  · rw [checkAndUpdateShare_reaches_scan P srv after share ex proofs jobDiffs hfresh hverify
      hflag hlt, hsim, heq]

/-- Witness of C1: ladder {100, 500, 2000} and a share of difficulty 600 against a network
difficulty of 1000. -/
theorem checkAndUpdateShare_ladder_greatest_witness :
    ∃ d, d ∈ ladder3.elems ∧
      d ≤ shareDiffOf benchPrimitives zeroMemory freshShare (benchJob 1000) (benchProof 600) ∧
      (∀ d1 ∈ ladder3.elems,
        d1 ≤ shareDiffOf benchPrimitives zeroMemory freshShare (benchJob 1000) (benchProof 600) →
          d1 ≤ d) ∧
      checkAndUpdateShare benchPrimitives plainServer zeroMemory freshShare
          (some ⟨benchJob 1000, true, false⟩) (benchProof 600) ladder3 =
        Exec.ret { freshShare with status := StratumStatus.ACCEPT, sharediff := d } :=
  checkAndUpdateShare_ladder_greatest benchPrimitives plainServer zeroMemory freshShare
    ⟨benchJob 1000, true, false⟩ (benchProof 600) ladder3 rfl (by decide) rfl rfl (by decide)
    ⟨500, by decide, by decide⟩

/-- The two ladder examples of the specification, evaluated: difficulty 600 on
{100, 500, 2000} is credited 500, difficulty 50 on {10, 100} is credited 10. -/
theorem checkAndUpdateShare_ladder_examples :
    checkAndUpdateShare benchPrimitives plainServer zeroMemory freshShare
        (some ⟨benchJob 1000, true, false⟩) (benchProof 600) ladder3 =
      Exec.ret { freshShare with status := StratumStatus.ACCEPT, sharediff := 500 } ∧
    checkAndUpdateShare benchPrimitives plainServer zeroMemory freshShare
        (some ⟨benchJob 1000, true, false⟩) (benchProof 50) ladder2 =
      Exec.ret { freshShare with status := StratumStatus.ACCEPT, sharediff := 10 } := by
  decide

/-- C2 (SOLVED rule).  For a fresh handle whose job has a network difficulty of at least 1
and a share whose proof verifies, the call returns, and the returned status is `SOLVED`
exactly when the accept-all-as-solved flag is set or the share difficulty is at least the
network difficulty, for every ladder and every value of the simulator flag. -/
theorem checkAndUpdateShare_solved_iff (P : Primitives) (srv : StratumServerGrin)
    (after : Nat → Nat) (share : ShareGrin) (ex : StratumJobEx) (proofs : List Nat)
    (jobDiffs : StdSet) (hfresh : ex.isStale = false) (hdiff : 1 ≤ ex.sjob_.difficulty_)
    (hverify : proofVerifies P after share ex.sjob_ proofs = true) :
    ∃ graded, checkAndUpdateShare P srv after share (some ex) proofs jobDiffs = Exec.ret graded ∧
      (graded.status = StratumStatus.SOLVED ↔
        (srv.isSubmitInvalidBlock_ = true ∨
          shareDiffOf P after share ex.sjob_ proofs ≥ ex.sjob_.difficulty_)) := by
  have hne : ex.sjob_.difficulty_ ≠ 0 := by omega
  rw [checkAndUpdateShare_verified P srv after share ex proofs jobDiffs hfresh hverify]
  by_cases hs : srv.isSubmitInvalidBlock_ = true ∨
      shareDiffOf P after share ex.sjob_ proofs ≥ ex.sjob_.difficulty_
  · refine ⟨share.set_status StratumStatus.SOLVED, ?_, ?_⟩
    · rcases hs with hs | hs <;> simp [hne, hs]
    · simp [ShareGrin.set_status, hs]
  · have hs1 : srv.isSubmitInvalidBlock_ = false := by
      cases hb : srv.isSubmitInvalidBlock_
      · rfl
      · exact absurd (Or.inl hb) hs
    have hs2 : ¬ shareDiffOf P after share ex.sjob_ proofs ≥ ex.sjob_.difficulty_ :=
      fun h => hs (Or.inr h)
    refine ⟨scanLadder srv.isEnableSimulator_ (shareDiffOf P after share ex.sjob_ proofs)
      share jobDiffs.rbegin_rend, ?_, ?_⟩
    · simp [hne, hs1, hs2]
    · constructor
      · intro h
        rcases scanLadder_status srv.isEnableSimulator_
          (shareDiffOf P after share ex.sjob_ proofs) share jobDiffs.rbegin_rend with h1 | h1 <;>
          rw [h1] at h <;> cases h
      · intro h
        exact absurd h hs

/-- Witness of C2: share difficulty 2,000,000 against network difficulty 1,000. -/
theorem checkAndUpdateShare_solved_iff_witness :
    ∃ graded, checkAndUpdateShare benchPrimitives plainServer zeroMemory freshShare
        (some ⟨benchJob 1000, true, false⟩) (benchProof 2000000) ladder2 = Exec.ret graded ∧
      (graded.status = StratumStatus.SOLVED ↔
        (plainServer.isSubmitInvalidBlock_ = true ∨
          shareDiffOf benchPrimitives zeroMemory freshShare (benchJob 1000) (benchProof 2000000) ≥
            (benchJob 1000).difficulty_)) :=
  checkAndUpdateShare_solved_iff benchPrimitives plainServer zeroMemory freshShare
    ⟨benchJob 1000, true, false⟩ (benchProof 2000000) ladder2 rfl (by decide) (by decide)

/-- Scenario 3 of the specification, evaluated: share difficulty 2,000,000 against network
difficulty 1,000 is graded `SOLVED`. -/
theorem checkAndUpdateShare_solved_example :
    checkAndUpdateShare benchPrimitives plainServer zeroMemory freshShare
        (some ⟨benchJob 1000, true, false⟩) (benchProof 2000000) ladder2 =
      Exec.ret { freshShare with status := StratumStatus.SOLVED } := by
  decide


/-- C3 (staleness).  The code at a stale handle: the same job, share, proof and ladder are
graded `ACCEPT` with difficulty 500 through a fresh handle and `JOB_NOT_FOUND` through a
stale one, although the proof verifies. -/
theorem checkAndUpdateShare_stale_handle_rejected :
    proofVerifies benchPrimitives zeroMemory freshShare (benchJob 1000) (benchProof 600) = true ∧
    checkAndUpdateShare benchPrimitives plainServer zeroMemory freshShare
        (some ⟨benchJob 1000, true, false⟩) (benchProof 600) ladder3 =
      Exec.ret { freshShare with status := StratumStatus.ACCEPT, sharediff := 500 } ∧
    checkAndUpdateShare benchPrimitives plainServer zeroMemory freshShare
        (some ⟨benchJob 1000, true, true⟩) (benchProof 600) ladder3 =
      Exec.ret { freshShare with status := StratumStatus.JOB_NOT_FOUND } := by
  decide

/-- C4 (invalid proofs).  For a fresh handle, when `VerifyPowGrin` returns false on the
input built from the job's `prePow_` and the share's nonce (`preProof`, the result of
lines 58-61), with the share's edge bits and the proof elements, the call returns the
share with status `INVALID_SOLUTION` and nothing else changed, for every ladder, every
network difficulty and every value of the two policy flags. -/
theorem checkAndUpdateShare_invalid_solution (P : Primitives) (srv : StratumServerGrin)
    (after : Nat → Nat) (share : ShareGrin) (ex : StratumJobEx) (proofs : List Nat)
    (jobDiffs : StdSet) (preProof : PreProofGrin) (hfresh : ex.isStale = false)
    (hbuilt : buildPreProof P after share ex.sjob_ = Exec.ret preProof)
    (hverify : P.VerifyPowGrin preProof share.edgebits proofs = false) :
    checkAndUpdateShare P srv after share (some ex) proofs jobDiffs =
      Exec.ret { share with status := StratumStatus.INVALID_SOLUTION } :=
  (checkAndUpdateShare_rejected P srv after share ex proofs jobDiffs preProof hfresh hbuilt
    hverify).1

/-- Witness of C4: a proof with one element only, the accept-all-as-solved flag set and a
network difficulty of 0. -/
theorem checkAndUpdateShare_invalid_solution_witness :
    buildPreProof benchPrimitives zeroMemory freshShare (benchJob 0) =
      Exec.ret { prePow := [], nonce := 7 } ∧
    benchPrimitives.VerifyPowGrin { prePow := [], nonce := 7 } freshShare.edgebits
        [2000000] = false ∧
    checkAndUpdateShare benchPrimitives ⟨true, true⟩ zeroMemory freshShare
        (some ⟨benchJob 0, true, false⟩) [2000000] ladder2 =
      Exec.ret { freshShare with status := StratumStatus.INVALID_SOLUTION } :=
  ⟨by decide, by decide,
    checkAndUpdateShare_invalid_solution benchPrimitives ⟨true, true⟩ zeroMemory freshShare
      ⟨benchJob 0, true, false⟩ [2000000] ladder2 { prePow := [], nonce := 7 } rfl (by decide)
      (by decide)⟩

/-- The rejection of a proof after a full header copy, evaluated: the header decodes to
the 4 bytes of a pre-proof, the verifier refuses them, and the share is graded
`INVALID_SOLUTION` although the accept-all-as-solved flag is set. -/
theorem checkAndUpdateShare_invalid_solution_example :
    buildPreProof overreadPrimitives zeroMemory freshShare (headerJob "01020305") =
      Exec.ret { prePow := [1, 2, 3, 5], nonce := 7 } ∧
    checkAndUpdateShare overreadPrimitives ⟨true, true⟩ zeroMemory freshShare
        (some ⟨headerJob "01020305", true, false⟩) (benchProof 2000000) ladder2 =
      Exec.ret { freshShare with status := StratumStatus.INVALID_SOLUTION } := by
  decide

/-- C5 (LOW_DIFFICULTY rule).  For a fresh handle, a share whose proof verifies, both
policy flags off and a share difficulty below the network difficulty, the call returns,
and the returned status is `LOW_DIFFICULTY` exactly when no threshold of the ladder is at
most the share difficulty (in particular when the ladder is empty). -/
theorem checkAndUpdateShare_low_difficulty_iff (P : Primitives) (srv : StratumServerGrin)
    (after : Nat → Nat) (share : ShareGrin) (ex : StratumJobEx) (proofs : List Nat)
    (jobDiffs : StdSet) (hfresh : ex.isStale = false)
    (hverify : proofVerifies P after share ex.sjob_ proofs = true)
    (hflag : srv.isSubmitInvalidBlock_ = false) (hsim : srv.isEnableSimulator_ = false)
    (hlt : shareDiffOf P after share ex.sjob_ proofs < ex.sjob_.difficulty_) :
    ∃ graded, checkAndUpdateShare P srv after share (some ex) proofs jobDiffs = Exec.ret graded ∧
      (graded.status = StratumStatus.LOW_DIFFICULTY ↔
        ¬ ∃ d ∈ jobDiffs.elems, d ≤ shareDiffOf P after share ex.sjob_ proofs) := by
  refine ⟨_, checkAndUpdateShare_reaches_scan P srv after share ex proofs jobDiffs hfresh
    hverify hflag hlt, ?_⟩
  rw [hsim, scanLadder_low_iff]
  constructor
  · rintro h ⟨d, hd, hle⟩
    have := h d ((jobDiffs.mem_rbegin_rend d).mpr hd)
    omega
  · intro h d hd
    by_contra hcon
    exact h ⟨d, (jobDiffs.mem_rbegin_rend d).mp hd, by omega⟩

/-- Witness of C5: share difficulty 5 against the ladder {10, 100}. -/
theorem checkAndUpdateShare_low_difficulty_iff_witness :
    ∃ graded, checkAndUpdateShare benchPrimitives plainServer zeroMemory freshShare
        (some ⟨benchJob 1000, true, false⟩) (benchProof 5) ladder2 = Exec.ret graded ∧
      (graded.status = StratumStatus.LOW_DIFFICULTY ↔
        ¬ ∃ d ∈ ladder2.elems,
          d ≤ shareDiffOf benchPrimitives zeroMemory freshShare (benchJob 1000) (benchProof 5)) :=
  checkAndUpdateShare_low_difficulty_iff benchPrimitives plainServer zeroMemory freshShare
    ⟨benchJob 1000, true, false⟩ (benchProof 5) ladder2 rfl (by decide) rfl rfl (by decide)

/-- Scenario 5 of the specification and the empty ladder, evaluated: share difficulty 5 is
graded `LOW_DIFFICULTY` against the ladder {10, 100} and against the empty ladder. -/
theorem checkAndUpdateShare_low_difficulty_examples :
    checkAndUpdateShare benchPrimitives plainServer zeroMemory freshShare
        (some ⟨benchJob 1000, true, false⟩) (benchProof 5) ladder2 =
      Exec.ret { freshShare with status := StratumStatus.LOW_DIFFICULTY } ∧
    checkAndUpdateShare benchPrimitives plainServer zeroMemory freshShare
        (some ⟨benchJob 1000, true, false⟩) (benchProof 5) ⟨[], by decide⟩ =
      Exec.ret { freshShare with status := StratumStatus.LOW_DIFFICULTY } := by
  decide

/-- C6, the claim as stated fails: on an absent handle the call does not return the share
with status `JOB_NOT_FOUND`; it stops at the dereference of the handle and makes no setter
call. -/
theorem checkAndUpdateShare_absent_handle_counterexample :
    checkAndUpdateShare benchPrimitives plainServer zeroMemory freshShare none
        (benchProof 600) ladder3 ≠
      Exec.ret { freshShare with status := StratumStatus.JOB_NOT_FOUND } ∧
    checkAndUpdateShare benchPrimitives plainServer zeroMemory freshShare none
        (benchProof 600) ladder3 = Exec.crash Fault.nullDereference := by
  decide

/-- C6 as amended.  For every share, proof, ladder and policy flags, a call with an absent
handle does not grade the share: it stops at the dereference of the handle, before any
setter of the share is called, so it returns no share and records no status. -/
theorem checkAndUpdateShare_absent_handle (P : Primitives) (srv : StratumServerGrin)
    (after : Nat → Nat) (share : ShareGrin) (proofs : List Nat) (jobDiffs : StdSet) :
    checkAndUpdateShare P srv after share none proofs jobDiffs =
        Exec.crash Fault.nullDereference ∧
      checkAndUpdateShareWrites P srv after share none proofs jobDiffs =
        Exec.crash Fault.nullDereference ∧
      ∀ graded, checkAndUpdateShare P srv after share none proofs jobDiffs ≠ Exec.ret graded := by
  refine ⟨rfl, rfl, ?_⟩
  intro graded h
  cases h


/-! ## Share validation: the setter calls -/

/-- Performing the setter calls recorded for the ladder scan gives the result of the
ladder scan. -/
theorem scanLadderWrites_replay (sim : Bool) (shareDiff : Nat) (share : ShareGrin)
    (l : List Nat) :
    (scanLadderWrites sim shareDiff l).foldl ShareWrite.apply share =
      scanLadder sim shareDiff share l := by
  induction l with
  | nil => rfl
  | cons d rest ih =>
    unfold scanLadderWrites scanLadder
    split
    · rfl
    · exact ih

/-- The ladder scan calls `set_status` once, with `ACCEPT` or `LOW_DIFFICULTY`. -/
theorem scanLadderWrites_status (sim : Bool) (shareDiff : Nat) (l : List Nat) :
    statusWrites (scanLadderWrites sim shareDiff l) = [StratumStatus.ACCEPT] ∨
      statusWrites (scanLadderWrites sim shareDiff l) = [StratumStatus.LOW_DIFFICULTY] := by
  induction l with
  | nil => right; rfl
  | cons d rest ih =>
    unfold scanLadderWrites
    split
    · left; rfl
    · exact ih

/-- The status of a share after a sequence of setter calls that passes exactly one status
to `set_status` is that status. -/
theorem status_after_writes (writes : List ShareWrite) (share : ShareGrin) (s : StratumStatus)
    (h : statusWrites writes = [s]) : (writes.foldl ShareWrite.apply share).status = s := by
  have key : ∀ (ws : List ShareWrite) (sh : ShareGrin),
      (ws.foldl ShareWrite.apply sh).status =
        (statusWrites ws).foldl (fun _ s1 => s1) sh.status := by
    intro ws
    induction ws with
    | nil => intro sh; rfl
    | cons w rest ih =>
      intro sh
      cases w with
      | set_status s1 =>
        rw [List.foldl_cons, ih]
        rfl
      | set_sharediff d =>
        rw [List.foldl_cons, ih]
        rfl
  rw [key, h]
  rfl

/-- The verifier having returned true on the pre-proof built is what `proofVerifies`
says. -/
theorem proofVerifies_of_built (P : Primitives) (after : Nat → Nat) (share : ShareGrin)
    (sjob : StratumJobGrin) (proofs : List Nat) (preProof : PreProofGrin)
    (hb : buildPreProof P after share sjob = Exec.ret preProof)
    (hv : P.VerifyPowGrin preProof share.edgebits proofs = true) :
    proofVerifies P after share sjob proofs = true := by
  unfold proofVerifies
  rw [hb]
  exact hv

/-- Verdict exclusivity on the runs that get past the header copy.  For every share and
every present handle whose job has a network difficulty of at least 1, when the handle is
stale or the copy of line 60 completes, the call returns; on the way it calls `set_status`
exactly once, with one of `JOB_NOT_FOUND`, `INVALID_SOLUTION`, `SOLVED`, `ACCEPT`,
`LOW_DIFFICULTY`, and the returned share, which is the submitted share after the recorded
setter calls, carries that status. -/
theorem checkAndUpdateShare_status_set_once (P : Primitives) (srv : StratumServerGrin)
    (after : Nat → Nat) (share : ShareGrin) (ex : StratumJobEx) (proofs : List Nat)
    (jobDiffs : StdSet) (hdiff : 1 ≤ ex.sjob_.difficulty_)
    (hcopy : ex.isStale = true ∨
      ∃ preProof, buildPreProof P after share ex.sjob_ = Exec.ret preProof) :
    ∃ writes s,
      checkAndUpdateShareWrites P srv after share (some ex) proofs jobDiffs = Exec.ret writes ∧
      statusWrites writes = [s] ∧
      s ∈ [StratumStatus.JOB_NOT_FOUND, StratumStatus.INVALID_SOLUTION, StratumStatus.SOLVED,
        StratumStatus.ACCEPT, StratumStatus.LOW_DIFFICULTY] ∧
      checkAndUpdateShare P srv after share (some ex) proofs jobDiffs =
        Exec.ret (writes.foldl ShareWrite.apply share) ∧
      (writes.foldl ShareWrite.apply share).status = s := by
  have hne : ex.sjob_.difficulty_ ≠ 0 := by omega
  have finish : ∀ (writes : List ShareWrite) (s : StratumStatus),
      checkAndUpdateShareWrites P srv after share (some ex) proofs jobDiffs = Exec.ret writes →
      statusWrites writes = [s] →
      s ∈ [StratumStatus.JOB_NOT_FOUND, StratumStatus.INVALID_SOLUTION, StratumStatus.SOLVED,
        StratumStatus.ACCEPT, StratumStatus.LOW_DIFFICULTY] →
      checkAndUpdateShare P srv after share (some ex) proofs jobDiffs =
        Exec.ret (writes.foldl ShareWrite.apply share) →
      ∃ writes s,
        checkAndUpdateShareWrites P srv after share (some ex) proofs jobDiffs = Exec.ret writes ∧
        statusWrites writes = [s] ∧
        s ∈ [StratumStatus.JOB_NOT_FOUND, StratumStatus.INVALID_SOLUTION, StratumStatus.SOLVED,
          StratumStatus.ACCEPT, StratumStatus.LOW_DIFFICULTY] ∧
        checkAndUpdateShare P srv after share (some ex) proofs jobDiffs =
          Exec.ret (writes.foldl ShareWrite.apply share) ∧
        (writes.foldl ShareWrite.apply share).status = s :=
    fun writes s h1 h2 h3 h4 => ⟨writes, s, h1, h2, h3, h4, status_after_writes writes share s h2⟩
  by_cases hstale : ex.isStale = true
  · exact finish [ShareWrite.set_status StratumStatus.JOB_NOT_FOUND] StratumStatus.JOB_NOT_FOUND
      (by simp [checkAndUpdateShareWrites, hstale]) rfl (by simp)
      (by simp [checkAndUpdateShare, hstale, ShareWrite.apply])
  · have hfresh : ex.isStale = false := by simpa using hstale
    obtain ⟨preProof, hb⟩ := hcopy.resolve_left hstale
    by_cases hverify : P.VerifyPowGrin preProof share.edgebits proofs = true
    · have hpv := proofVerifies_of_built P after share ex.sjob_ proofs preProof hb hverify
      have hc0 := checkAndUpdateShare_verified P srv after share ex proofs jobDiffs hfresh hpv
      have hw0 := checkAndUpdateShareWrites_verified P srv after share ex proofs jobDiffs
        hfresh hpv
      rw [if_neg hne] at hc0 hw0
      by_cases hsolved : (srv.isSubmitInvalidBlock_ ||
          decide (shareDiffOf P after share ex.sjob_ proofs ≥ ex.sjob_.difficulty_)) = true
      · rw [if_pos hsolved] at hc0 hw0
        exact finish [ShareWrite.set_status StratumStatus.SOLVED] StratumStatus.SOLVED
          hw0 rfl (by simp) hc0
      · rw [if_neg hsolved] at hc0 hw0
        have hc : checkAndUpdateShare P srv after share (some ex) proofs jobDiffs =
            Exec.ret ((scanLadderWrites srv.isEnableSimulator_
              (shareDiffOf P after share ex.sjob_ proofs) jobDiffs.rbegin_rend).foldl
                ShareWrite.apply share) := by
          rw [scanLadderWrites_replay]
          exact hc0
        rcases scanLadderWrites_status srv.isEnableSimulator_
          (shareDiffOf P after share ex.sjob_ proofs) jobDiffs.rbegin_rend with h1 | h1
        · exact finish _ StratumStatus.ACCEPT hw0 h1 (by simp) hc
        · exact finish _ StratumStatus.LOW_DIFFICULTY hw0 h1 (by simp) hc
    · have hv : P.VerifyPowGrin preProof share.edgebits proofs = false := by
        simpa using hverify
      obtain ⟨hc, hw⟩ := checkAndUpdateShare_rejected P srv after share ex proofs jobDiffs
        preProof hfresh hb hv
      exact finish [ShareWrite.set_status StratumStatus.INVALID_SOLUTION]
        StratumStatus.INVALID_SOLUTION hw rfl (by simp) hc

/-- C10 (verdict exclusivity), the code at a failing input: a fresh handle whose job has
network difficulty 1000 and an empty `prePow_`, which decodes to an empty buffer while a
pre-proof has 4 bytes.  The call stops in the copy of line 60: it does not return, no
setter of the share is called and no status is assigned. -/
theorem checkAndUpdateShare_empty_header_no_status :
    1 ≤ (headerJob "").difficulty_ ∧
    overreadPrimitives.ParseHex (headerJob "").prePow_ = [] ∧
    checkAndUpdateShare overreadPrimitives plainServer zeroMemory freshShare
        (some ⟨headerJob "", true, false⟩) (benchProof 600) ladder3 =
      Exec.crash Fault.nullRead ∧
    checkAndUpdateShareWrites overreadPrimitives plainServer zeroMemory freshShare
        (some ⟨headerJob "", true, false⟩) (benchProof 600) ladder3 =
      Exec.crash Fault.nullRead := by
  decide

/-! ## Lemmas on the job table and the handle store -/

theorem markStaleAt_length (hs : List StratumJobEx) (r : Nat) :
    (markStaleAt hs r).length = hs.length := by
  induction hs generalizing r with
  | nil => rfl
  | cons ex rest ih =>
    cases r with
    | zero => rfl
    | succ r => simp [markStaleAt, ih]

theorem markStaleAt_getElem? (hs : List StratumJobEx) (r i : Nat) :
    (markStaleAt hs r)[i]? =
      if i = r then hs[i]?.map StratumJobEx.markStale else hs[i]? := by
  induction hs generalizing r i with
  | nil => simp [markStaleAt]
  | cons ex rest ih =>
    cases r with
    | zero =>
      cases i with
      | zero => simp [markStaleAt]
      | succ i => simp [markStaleAt]
    | succ r =>
      cases i with
      | zero => simp [markStaleAt]
      | succ i => simp [markStaleAt, ih]

theorem markAllStale_length (t : List (Nat × Nat)) (hs : List StratumJobEx) :
    (markAllStale t hs).length = hs.length := by
  unfold markAllStale
  induction t generalizing hs with
  | nil => rfl
  | cons e rest ih => rw [List.foldl_cons, ih, markStaleAt_length]

/-- After the loop of lines 183-185 a handle is marked stale when the table refers to it
and is as before otherwise. -/
theorem markAllStale_getElem? (t : List (Nat × Nat)) (hs : List StratumJobEx) (i : Nat) :
    (markAllStale t hs)[i]? =
      if i ∈ t.map Prod.snd then hs[i]?.map StratumJobEx.markStale else hs[i]? := by
  unfold markAllStale
  induction t generalizing hs with
  | nil => simp
  | cons e rest ih =>
    rw [List.foldl_cons, ih, markStaleAt_getElem?]
    have hmem : i ∈ (e :: rest).map Prod.snd ↔ (i = e.2 ∨ i ∈ rest.map Prod.snd) := by simp
    by_cases h1 : i = e.2 <;> by_cases h2 : i ∈ rest.map Prod.snd
    · rw [if_pos h2, if_pos h1, if_pos (hmem.mpr (Or.inl h1))]
      cases hs[i]? <;> simp [StratumJobEx.markStale]
    · rw [if_neg h2, if_pos h1, if_pos (hmem.mpr (Or.inl h1))]
    · rw [if_pos h2, if_neg h1, if_pos (hmem.mpr (Or.inr h2))]
    · rw [if_neg h2, if_neg h1, if_neg (fun h => (hmem.mp h).elim h1 h2)]

theorem mapAssign_mem (t : List (Nat × Nat)) (k v : Nat) (e : Nat × Nat)
    (h : e ∈ mapAssign t k v) : e = (k, v) ∨ e ∈ t := by
  induction t with
  | nil => simpa [mapAssign] using h
  | cons e1 rest ih =>
    obtain ⟨k1, v1⟩ := e1
    unfold mapAssign at h
    split at h
    · rcases List.mem_cons.mp h with h | h
      · exact Or.inl h
      · exact Or.inr h
    · split at h
      · rcases List.mem_cons.mp h with h | h
        · exact Or.inl h
        · exact Or.inr (List.mem_cons_of_mem _ h)
      · rcases List.mem_cons.mp h with h | h
        · exact Or.inr (h ▸ List.mem_cons_self _ _)
        · rcases ih h with h | h
          · exact Or.inl h
          · exact Or.inr (List.mem_cons_of_mem _ h)

theorem mapFind_mapAssign (t : List (Nat × Nat)) (k v k2 : Nat) :
    mapFind (mapAssign t k v) k2 = if k2 = k then some v else mapFind t k2 := by
  induction t with
  | nil => simp [mapAssign, mapFind]
  | cons e1 rest ih =>
    obtain ⟨k1, v1⟩ := e1
    unfold mapAssign
    by_cases h1 : k < k1
    · simp [h1, mapFind]
    · by_cases h2 : k = k1
      · subst h2
        by_cases h3 : k2 = k <;> simp [mapFind, h3]
      · simp only [h1, h2, if_false, mapFind, ih]
        by_cases h3 : k2 = k1
        · have h4 : ¬ k1 = k := fun h => h2 h.symm
          simp [h3, h4]
        · simp [h3]

theorem mapFind_mem (t : List (Nat × Nat)) (k v : Nat) (h : mapFind t k = some v) :
    (k, v) ∈ t := by
  induction t with
  | nil => simp [mapFind] at h
  | cons e1 rest ih =>
    obtain ⟨k1, v1⟩ := e1
    unfold mapFind at h
    split at h
    · next hk =>
      cases h
      rw [hk]
      exact List.mem_cons_self _ _
    · exact List.mem_cons_of_mem _ (ih h)


/-! ## Lemmas on `broadcastStratumJob` -/

theorem broadcastStratumJob_lastHeight (repo : JobRepositoryGrin) (sjob : StratumJobGrin) :
    (broadcastStratumJob repo sjob).lastHeight_ = sjob.height_ := by
  unfold broadcastStratumJob
  by_cases h : sjob.height_ = repo.lastHeight_ <;> simp [h]

theorem broadcastStratumJob_exJobs (repo : JobRepositoryGrin) (sjob : StratumJobGrin) :
    (broadcastStratumJob repo sjob).exJobs_ =
      mapAssign repo.exJobs_ sjob.jobId_ repo.handles.length :=
  rfl

theorem broadcastStratumJob_handles_length (repo : JobRepositoryGrin) (sjob : StratumJobGrin) :
    (broadcastStratumJob repo sjob).handles.length = repo.handles.length + 1 := by
  unfold broadcastStratumJob
  by_cases h : sjob.height_ = repo.lastHeight_ <;> simp [h, markAllStale_length]

/-- A publish at the last published height changes no handle of the store. -/
theorem broadcastStratumJob_handle_same_height (repo : JobRepositoryGrin)
    (sjob : StratumJobGrin) (hsame : sjob.height_ = repo.lastHeight_) (i : Nat)
    (ex : StratumJobEx) (hex : repo.handles[i]? = some ex) :
    (broadcastStratumJob repo sjob).handles[i]? = some ex := by
  have hi : i < repo.handles.length := (List.getElem?_eq_some.mp hex).1
  simp [broadcastStratumJob, hsame, List.getElem?_append, hi, hex]

/-- A publish at another height marks the handles the table refers to and changes no other
handle of the store. -/
theorem broadcastStratumJob_handle_new_height (repo : JobRepositoryGrin)
    (sjob : StratumJobGrin) (hnew : sjob.height_ ≠ repo.lastHeight_) (i : Nat)
    (ex : StratumJobEx) (hex : repo.handles[i]? = some ex) :
    (broadcastStratumJob repo sjob).handles[i]? =
      some (if i ∈ repo.exJobs_.map Prod.snd then ex.markStale else ex) := by
  have hi : i < repo.handles.length := (List.getElem?_eq_some.mp hex).1
  simp only [broadcastStratumJob, hnew, ne_eq, not_false_eq_true, decide_True, if_true,
    markAllStale_getElem?, List.getElem?_append, hi, hex]
  split <;> rfl

/-- Whatever the height of the published job, a handle of the store keeps its job and its
clean flag, and stays stale if it was. -/
theorem broadcastStratumJob_handle_kept (repo : JobRepositoryGrin) (sjob : StratumJobGrin)
    (i : Nat) (ex : StratumJobEx) (hex : repo.handles[i]? = some ex) :
    ∃ ex1, (broadcastStratumJob repo sjob).handles[i]? = some ex1 ∧ ex1.sjob_ = ex.sjob_ ∧
      ex1.isClean_ = ex.isClean_ ∧ (ex.isStale = true → ex1.isStale = true) := by
  by_cases h : sjob.height_ = repo.lastHeight_
  · exact ⟨ex, broadcastStratumJob_handle_same_height repo sjob h i ex hex, rfl, rfl, id⟩
  · refine ⟨_, broadcastStratumJob_handle_new_height repo sjob h i ex hex, ?_, ?_, ?_⟩
    · split <;> rfl
    · split <;> rfl
    · intro hs
      split
      · rfl
      · exact hs

/-- The handle created by a publish wraps the published job. -/
theorem broadcastStratumJob_new_handle (repo : JobRepositoryGrin) (sjob : StratumJobGrin) :
    ∃ ex, (broadcastStratumJob repo sjob).handles[repo.handles.length]? = some ex ∧
      ex.sjob_ = sjob ∧ ex.isClean_ = decide (sjob.height_ ≠ repo.lastHeight_) := by
  by_cases h : sjob.height_ = repo.lastHeight_
  · refine ⟨createStratumJobEx sjob false, ?_, rfl, by simp [createStratumJobEx, h]⟩
    simp [broadcastStratumJob, h, List.getElem?_append]
  · refine ⟨if repo.handles.length ∈ repo.exJobs_.map Prod.snd then
        (createStratumJobEx sjob true).markStale else createStratumJobEx sjob true, ?_, ?_, ?_⟩
    · simp only [broadcastStratumJob, h, ne_eq, not_false_eq_true, decide_True, if_true,
        markAllStale_getElem?, List.getElem?_append]
      simp
      split <;> rfl
    · split <;> rfl
    · simp only [h, ne_eq, not_false_eq_true, decide_True]
      split <;> rfl

theorem publishAll_append (repo : JobRepositoryGrin) (xs ys : List StratumJobGrin) :
    publishAll repo (xs ++ ys) = publishAll (publishAll repo xs) ys := by
  simp [publishAll, List.foldl_append]

theorem publishAll_cons (repo : JobRepositoryGrin) (x : StratumJobGrin)
    (xs : List StratumJobGrin) :
    publishAll repo (x :: xs) = publishAll (broadcastStratumJob repo x) xs :=
  rfl

theorem publishAll_handles_length (repo : JobRepositoryGrin) (jobs : List StratumJobGrin) :
    (publishAll repo jobs).handles.length = repo.handles.length + jobs.length := by
  induction jobs generalizing repo with
  | nil => rfl
  | cons j rest ih =>
    rw [publishAll_cons, ih, broadcastStratumJob_handles_length, List.length_cons]
    omega

/-- Once a handle is stale it is stale after every later sequence of publishes. -/
theorem publishAll_stale_kept (repo : JobRepositoryGrin) (jobs : List StratumJobGrin) (i : Nat)
    (ex : StratumJobEx) (hex : repo.handles[i]? = some ex) (hstale : ex.isStale = true) :
    ∃ ex1, (publishAll repo jobs).handles[i]? = some ex1 ∧ ex1.sjob_ = ex.sjob_ ∧
      ex1.isStale = true := by
  induction jobs generalizing repo ex with
  | nil => exact ⟨ex, hex, rfl, hstale⟩
  | cons j rest ih =>
    obtain ⟨ex1, h1, h2, _, h4⟩ := broadcastStratumJob_handle_kept repo j i ex hex
    obtain ⟨ex2, g1, g2, g3⟩ := ih (broadcastStratumJob repo j) ex1 h1 (h4 hstale)
    exact ⟨ex2, g1, g2.trans h2, g3⟩

theorem reachable_publishAll (jobs : List StratumJobGrin) :
    Reachable (publishAll JobRepositoryGrin.init jobs) := by
  have key : ∀ (js : List StratumJobGrin) (repo : JobRepositoryGrin),
      Reachable repo → Reachable (publishAll repo js) := by
    intro js
    induction js with
    | nil => intro repo h; exact h
    | cons j rest ih =>
      intro repo h
      exact ih _ (Reachable.publish repo j h)
  exact key jobs _ Reachable.init


/-! ## The job repository: staleness -/

/-- Right after a job is published, its handle is the newest of the store, the table maps
the job's id to it and the last published height is the job's height. -/
theorem broadcastStratumJob_tracks_new (repo : JobRepositoryGrin) (A : StratumJobGrin) :
    ∃ ex, (broadcastStratumJob repo A).handles[repo.handles.length]? = some ex ∧
      ex.sjob_ = A ∧
      (ex.isStale = true ∨
        (mapFind (broadcastStratumJob repo A).exJobs_ A.jobId_ = some repo.handles.length ∧
          (broadcastStratumJob repo A).lastHeight_ = A.height_)) := by
  obtain ⟨ex, h1, h2, _⟩ := broadcastStratumJob_new_handle repo A
  refine ⟨ex, h1, h2, Or.inr ⟨?_, broadcastStratumJob_lastHeight repo A⟩⟩
  rw [broadcastStratumJob_exJobs, mapFind_mapAssign]
  simp

/-- A handle that is stale, or else still in the table under its job's id while its job's
height is the last published one, is in the same situation after a publish of a job that
does not carry both the id and the height of the handle's job. -/
theorem broadcastStratumJob_tracks_step (repo : JobRepositoryGrin) (A m : StratumJobGrin)
    (n : Nat) (hid : ¬ (m.jobId_ = A.jobId_ ∧ m.height_ = A.height_))
    (h : ∃ ex, repo.handles[n]? = some ex ∧ ex.sjob_ = A ∧
      (ex.isStale = true ∨
        (mapFind repo.exJobs_ A.jobId_ = some n ∧ repo.lastHeight_ = A.height_))) :
    ∃ ex, (broadcastStratumJob repo m).handles[n]? = some ex ∧ ex.sjob_ = A ∧
      (ex.isStale = true ∨
        (mapFind (broadcastStratumJob repo m).exJobs_ A.jobId_ = some n ∧
          (broadcastStratumJob repo m).lastHeight_ = A.height_)) := by
  obtain ⟨ex, hex, hjob, hcase⟩ := h
  rcases hcase with hstale | ⟨hfind, hlast⟩
  · obtain ⟨ex1, h1, h2, _, h4⟩ := broadcastStratumJob_handle_kept repo m n ex hex
    exact ⟨ex1, h1, h2.trans hjob, Or.inl (h4 hstale)⟩
  · by_cases hm : m.height_ = repo.lastHeight_
    · refine ⟨ex, broadcastStratumJob_handle_same_height repo m hm n ex hex, hjob,
        Or.inr ⟨?_, ?_⟩⟩
      · rw [broadcastStratumJob_exJobs, mapFind_mapAssign,
          if_neg (fun h => hid ⟨h.symm, hm.trans hlast⟩), hfind]
      · rw [broadcastStratumJob_lastHeight, hm, hlast]
    · have hmem : n ∈ repo.exJobs_.map Prod.snd :=
        List.mem_map.mpr ⟨(A.jobId_, n), mapFind_mem _ _ _ hfind, rfl⟩
      refine ⟨ex.markStale, ?_, hjob, Or.inl rfl⟩
      rw [broadcastStratumJob_handle_new_height repo m hm n ex hex, if_pos hmem]

/-- A handle that is stale, or else still in the table under its job's id while its job's
height is the last published one, is stale after a publish of a job of another height. -/
theorem broadcastStratumJob_tracks_final (repo : JobRepositoryGrin) (A B : StratumJobGrin)
    (n : Nat) (hheight : B.height_ ≠ A.height_)
    (h : ∃ ex, repo.handles[n]? = some ex ∧ ex.sjob_ = A ∧
      (ex.isStale = true ∨
        (mapFind repo.exJobs_ A.jobId_ = some n ∧ repo.lastHeight_ = A.height_))) :
    ∃ ex, (broadcastStratumJob repo B).handles[n]? = some ex ∧ ex.sjob_ = A ∧
      ex.isStale = true := by
  obtain ⟨ex, hex, hjob, hcase⟩ := h
  rcases hcase with hstale | ⟨hfind, hlast⟩
  · obtain ⟨ex1, h1, h2, _, h4⟩ := broadcastStratumJob_handle_kept repo B n ex hex
    exact ⟨ex1, h1, h2.trans hjob, h4 hstale⟩
  · have hB : B.height_ ≠ repo.lastHeight_ := by rw [hlast]; exact hheight
    have hmem : n ∈ repo.exJobs_.map Prod.snd :=
      List.mem_map.mpr ⟨(A.jobId_, n), mapFind_mem _ _ _ hfind, rfl⟩
    refine ⟨ex.markStale, ?_, hjob, rfl⟩
    rw [broadcastStratumJob_handle_new_height repo B hB n ex hex, if_pos hmem]

theorem publishAll_tracks (repo : JobRepositoryGrin) (A : StratumJobGrin)
    (mid : List StratumJobGrin) (n : Nat)
    (hid : ∀ m ∈ mid, ¬ (m.jobId_ = A.jobId_ ∧ m.height_ = A.height_))
    (h : ∃ ex, repo.handles[n]? = some ex ∧ ex.sjob_ = A ∧
      (ex.isStale = true ∨
        (mapFind repo.exJobs_ A.jobId_ = some n ∧ repo.lastHeight_ = A.height_))) :
    ∃ ex, (publishAll repo mid).handles[n]? = some ex ∧ ex.sjob_ = A ∧
      (ex.isStale = true ∨
        (mapFind (publishAll repo mid).exJobs_ A.jobId_ = some n ∧
          (publishAll repo mid).lastHeight_ = A.height_)) := by
  induction mid generalizing repo with
  | nil => exact h
  | cons m rest ih =>
    rw [publishAll_cons]
    exact ih (broadcastStratumJob repo m) (fun x hx => hid x (List.mem_cons_of_mem _ hx))
      (broadcastStratumJob_tracks_step repo A m n (hid m (List.mem_cons_self _ _)) h)

/-- C7, the claim as stated fails: job A (id 1, height 5) is published, then a job of the
same height that carries the same id, then job B (id 2, height 6).  The handle created for
A, which the table held under id 1 right after A's publish, is not stale after B's
publish. -/
theorem broadcastStratumJob_marks_stale_counterexample :
    (jobAt 2 6).height_ > (jobAt 1 5).height_ ∧
    mapFind (publishAll JobRepositoryGrin.init [jobAt 1 5]).exJobs_ (jobAt 1 5).jobId_ = some 0 ∧
    (publishAll JobRepositoryGrin.init [jobAt 1 5, jobAt 1 5, jobAt 2 6]).handles[0]? =
      some { sjob_ := jobAt 1 5, isClean_ := true, isStale := false } := by
  decide

/-- C7 as amended.  Start from the initial repository and publish any sequence of jobs in
which job A comes before job B, B's height is greater than A's, and no job published
between A and B carries both A's job id and A's height.  Then the handle created for A (the one the table
holds under A's id right after A's publish) is stale once B's publish has completed, and
after every later publish. -/
theorem broadcastStratumJob_marks_stale (pre mid post : List StratumJobGrin)
    (A B : StratumJobGrin) (hheight : B.height_ > A.height_)
    (hid : ∀ m ∈ mid, ¬ (m.jobId_ = A.jobId_ ∧ m.height_ = A.height_)) :
    mapFind (publishAll JobRepositoryGrin.init (pre ++ [A])).exJobs_ A.jobId_ =
        some pre.length ∧
      ∃ ex, (publishAll JobRepositoryGrin.init
          (pre ++ [A] ++ mid ++ [B] ++ post)).handles[pre.length]? = some ex ∧
        ex.sjob_ = A ∧ ex.isStale = true := by
  have hlen : (publishAll JobRepositoryGrin.init pre).handles.length = pre.length := by
    rw [publishAll_handles_length]
    simp [JobRepositoryGrin.init]
  constructor
  · rw [publishAll_append]
    show mapFind (broadcastStratumJob _ A).exJobs_ A.jobId_ = some pre.length
    rw [broadcastStratumJob_exJobs, mapFind_mapAssign, hlen]
    simp
  · have h1 := broadcastStratumJob_tracks_new (publishAll JobRepositoryGrin.init pre) A
    rw [hlen] at h1
    have h2 := publishAll_tracks _ A mid pre.length hid h1
    have hne : B.height_ ≠ A.height_ := by omega
    obtain ⟨ex, h3, h4, h5⟩ := broadcastStratumJob_tracks_final _ A B pre.length hne h2
    obtain ⟨ex1, g1, g2, g3⟩ := publishAll_stale_kept _ post pre.length ex h3 h5
    refine ⟨ex1, ?_, g2.trans h4, g3⟩
    rw [publishAll_append, publishAll_append, publishAll_append, publishAll_append]
    exact g1

/-- Witness of C7 as amended: A (id 1, height 5), a job of the same height with id 3, a
job with A's id at height 4, then B (id 2, height 6). -/
theorem broadcastStratumJob_marks_stale_witness :
    (jobAt 2 6).height_ > (jobAt 1 5).height_ ∧
    (∀ m ∈ [jobAt 3 5, jobAt 1 4],
      ¬ (m.jobId_ = (jobAt 1 5).jobId_ ∧ m.height_ = (jobAt 1 5).height_)) ∧
    (mapFind (publishAll JobRepositoryGrin.init ([] ++ [jobAt 1 5])).exJobs_
          (jobAt 1 5).jobId_ = some ([] : List StratumJobGrin).length ∧
      ∃ ex, (publishAll JobRepositoryGrin.init
          ([] ++ [jobAt 1 5] ++ [jobAt 3 5, jobAt 1 4] ++ [jobAt 2 6] ++ [])).handles[
            ([] : List StratumJobGrin).length]? = some ex ∧
        ex.sjob_ = jobAt 1 5 ∧ ex.isStale = true) :=
  ⟨by decide, by decide,
    broadcastStratumJob_marks_stale [] [jobAt 3 5, jobAt 1 4] [] (jobAt 1 5) (jobAt 2 6)
      (by decide) (by decide)⟩


/-- C8 (same-height publish).  For every repository state and every job whose height is
the last published height, `broadcastStratumJob` creates the new handle with
`isClean = false` and passes it to `sendMiningNotify`, and every handle that the table
referred to before the call is exactly as it was, its stale flag included. -/
theorem broadcastStratumJob_same_height_keeps_stale (repo : JobRepositoryGrin)
    (sjob : StratumJobGrin) (hsame : sjob.height_ = repo.lastHeight_) :
    (broadcastStratumJob repo sjob).handles[repo.handles.length]? =
        some { sjob_ := sjob, isClean_ := false, isStale := false } ∧
      (broadcastStratumJob repo sjob).notified = repo.notified ++ [repo.handles.length] ∧
      ∀ e ∈ repo.exJobs_, ∀ ex, repo.handles[e.2]? = some ex →
        (broadcastStratumJob repo sjob).handles[e.2]? = some ex ∧
          (broadcastStratumJob repo sjob).isStaleAt e.2 = repo.isStaleAt e.2 := by
  refine ⟨?_, rfl, ?_⟩
  · simp [broadcastStratumJob, hsame, List.getElem?_append, createStratumJobEx]
  · intro e _ ex hex
    have h := broadcastStratumJob_handle_same_height repo sjob hsame e.2 ex hex
    exact ⟨h, by simp [JobRepositoryGrin.isStaleAt, h, hex]⟩

/-- Witness of C8: after jobs of ids 1 and 2 at heights 4 and 5, a job of id 3 at
height 5. -/
theorem broadcastStratumJob_same_height_keeps_stale_witness :
    (jobAt 3 5).height_ =
      (publishAll JobRepositoryGrin.init [jobAt 1 4, jobAt 2 5]).lastHeight_ ∧
    ((broadcastStratumJob (publishAll JobRepositoryGrin.init [jobAt 1 4, jobAt 2 5])
          (jobAt 3 5)).handles[
            (publishAll JobRepositoryGrin.init [jobAt 1 4, jobAt 2 5]).handles.length]? =
        some { sjob_ := jobAt 3 5, isClean_ := false, isStale := false } ∧
      (broadcastStratumJob (publishAll JobRepositoryGrin.init [jobAt 1 4, jobAt 2 5])
          (jobAt 3 5)).notified =
        (publishAll JobRepositoryGrin.init [jobAt 1 4, jobAt 2 5]).notified ++
          [(publishAll JobRepositoryGrin.init [jobAt 1 4, jobAt 2 5]).handles.length] ∧
      ∀ e ∈ (publishAll JobRepositoryGrin.init [jobAt 1 4, jobAt 2 5]).exJobs_, ∀ ex,
        (publishAll JobRepositoryGrin.init [jobAt 1 4, jobAt 2 5]).handles[e.2]? = some ex →
          (broadcastStratumJob (publishAll JobRepositoryGrin.init [jobAt 1 4, jobAt 2 5])
              (jobAt 3 5)).handles[e.2]? = some ex ∧
            (broadcastStratumJob (publishAll JobRepositoryGrin.init [jobAt 1 4, jobAt 2 5])
                (jobAt 3 5)).isStaleAt e.2 =
              (publishAll JobRepositoryGrin.init [jobAt 1 4, jobAt 2 5]).isStaleAt e.2) :=
  ⟨by decide,
    broadcastStratumJob_same_height_keeps_stale
      (publishAll JobRepositoryGrin.init [jobAt 1 4, jobAt 2 5]) (jobAt 3 5) (by decide)⟩

/-- The same-height publish of the witness above, evaluated: the stale handle of height 4
stays stale, the fresh handle of height 5 stays fresh, the new handle is not clean. -/
theorem broadcastStratumJob_same_height_example :
    (publishAll JobRepositoryGrin.init [jobAt 1 4, jobAt 2 5]).handles.map StratumJobEx.isStale =
      [true, false] ∧
    (publishAll JobRepositoryGrin.init [jobAt 1 4, jobAt 2 5, jobAt 3 5]).handles.map
        StratumJobEx.isStale = [true, false, false] ∧
    (publishAll JobRepositoryGrin.init [jobAt 1 4, jobAt 2 5, jobAt 3 5]).handles.map
        StratumJobEx.isClean_ = [true, true, false] := by
  decide

/-- One publish keeps the table inside the store and keeps every fresh handle of the table
at the last published height. -/
theorem broadcastStratumJob_keeps_invariant (repo : JobRepositoryGrin) (sjob : StratumJobGrin)
    (hwf : ∀ e ∈ repo.exJobs_, ∃ ex, repo.handles[e.2]? = some ex)
    (hinv : ∀ e ∈ repo.exJobs_, ∀ ex, repo.handles[e.2]? = some ex → ex.isStale = false →
      ex.sjob_.height_ = repo.lastHeight_) :
    (∀ e ∈ (broadcastStratumJob repo sjob).exJobs_,
        ∃ ex, (broadcastStratumJob repo sjob).handles[e.2]? = some ex) ∧
      ∀ e ∈ (broadcastStratumJob repo sjob).exJobs_, ∀ ex,
        (broadcastStratumJob repo sjob).handles[e.2]? = some ex → ex.isStale = false →
          ex.sjob_.height_ = (broadcastStratumJob repo sjob).lastHeight_ := by
  constructor
  · intro e he
    rw [broadcastStratumJob_exJobs] at he
    rcases mapAssign_mem _ _ _ _ he with rfl | hold
    · obtain ⟨ex, h1, _⟩ := broadcastStratumJob_new_handle repo sjob
      exact ⟨ex, h1⟩
    · obtain ⟨ex, hex⟩ := hwf e hold
      obtain ⟨ex1, h1, _⟩ := broadcastStratumJob_handle_kept repo sjob e.2 ex hex
      exact ⟨ex1, h1⟩
  · intro e he ex1 hex1 hfresh
    rw [broadcastStratumJob_lastHeight]
    rw [broadcastStratumJob_exJobs] at he
    rcases mapAssign_mem _ _ _ _ he with rfl | hold
    · obtain ⟨ex, h1, h2, _⟩ := broadcastStratumJob_new_handle repo sjob
      rw [h1] at hex1
      have hee : ex = ex1 := Option.some.inj hex1
      rw [← hee, h2]
    · obtain ⟨ex, hex⟩ := hwf e hold
      by_cases hsame : sjob.height_ = repo.lastHeight_
      · rw [broadcastStratumJob_handle_same_height repo sjob hsame e.2 ex hex] at hex1
        have hee : ex = ex1 := Option.some.inj hex1
        rw [← hee, hsame]
        exact hinv e hold ex hex (hee ▸ hfresh)
      · have hmem : e.2 ∈ repo.exJobs_.map Prod.snd := List.mem_map.mpr ⟨e, hold, rfl⟩
        rw [broadcastStratumJob_handle_new_height repo sjob hsame e.2 ex hex,
          if_pos hmem] at hex1
        have hee : ex.markStale = ex1 := Option.some.inj hex1
        rw [← hee] at hfresh
        simp [StratumJobEx.markStale] at hfresh

/-- C9 (single current height).  In every state reachable from the initial repository by
`broadcastStratumJob` calls, every entry of the table refers to a handle, every handle of
the table that is not stale belongs to a job whose height is `lastHeight_`, and therefore
any two handles of the table that are not stale belong to jobs of the same height. -/
theorem reachable_single_current_height (repo : JobRepositoryGrin) (hreach : Reachable repo) :
    (∀ e ∈ repo.exJobs_, ∃ ex, repo.handles[e.2]? = some ex) ∧
      (∀ e ∈ repo.exJobs_, ∀ ex, repo.handles[e.2]? = some ex → ex.isStale = false →
        ex.sjob_.height_ = repo.lastHeight_) ∧
      ∀ e1 ∈ repo.exJobs_, ∀ e2 ∈ repo.exJobs_, ∀ ex1 ex2,
        repo.handles[e1.2]? = some ex1 → repo.handles[e2.2]? = some ex2 →
          ex1.isStale = false → ex2.isStale = false →
            ex1.sjob_.height_ = ex2.sjob_.height_ := by
  have key : (∀ e ∈ repo.exJobs_, ∃ ex, repo.handles[e.2]? = some ex) ∧
      (∀ e ∈ repo.exJobs_, ∀ ex, repo.handles[e.2]? = some ex → ex.isStale = false →
        ex.sjob_.height_ = repo.lastHeight_) := by
    induction hreach with
    | init =>
      constructor
      · intro e he
        simp [JobRepositoryGrin.init] at he
      · intro e he
        simp [JobRepositoryGrin.init] at he
    | publish repo sjob _ ih => exact broadcastStratumJob_keeps_invariant repo sjob ih.1 ih.2
  refine ⟨key.1, key.2, ?_⟩
  intro e1 he1 e2 he2 ex1 ex2 h1 h2 f1 f2
  rw [key.2 e1 he1 ex1 h1 f1, key.2 e2 he2 ex2 h2 f2]

/-- Witness of C9: the state reached by publishing jobs of ids 1, 2, 3 at heights 4, 5,
5. -/
theorem reachable_single_current_height_witness :
    Reachable (publishAll JobRepositoryGrin.init [jobAt 1 4, jobAt 2 5, jobAt 3 5]) ∧
    ((∀ e ∈ (publishAll JobRepositoryGrin.init [jobAt 1 4, jobAt 2 5, jobAt 3 5]).exJobs_,
        ∃ ex, (publishAll JobRepositoryGrin.init
          [jobAt 1 4, jobAt 2 5, jobAt 3 5]).handles[e.2]? = some ex) ∧
      (∀ e ∈ (publishAll JobRepositoryGrin.init [jobAt 1 4, jobAt 2 5, jobAt 3 5]).exJobs_,
        ∀ ex, (publishAll JobRepositoryGrin.init
          [jobAt 1 4, jobAt 2 5, jobAt 3 5]).handles[e.2]? = some ex → ex.isStale = false →
            ex.sjob_.height_ =
              (publishAll JobRepositoryGrin.init [jobAt 1 4, jobAt 2 5, jobAt 3 5]).lastHeight_) ∧
      ∀ e1 ∈ (publishAll JobRepositoryGrin.init [jobAt 1 4, jobAt 2 5, jobAt 3 5]).exJobs_,
        ∀ e2 ∈ (publishAll JobRepositoryGrin.init [jobAt 1 4, jobAt 2 5, jobAt 3 5]).exJobs_,
          ∀ ex1 ex2,
            (publishAll JobRepositoryGrin.init
              [jobAt 1 4, jobAt 2 5, jobAt 3 5]).handles[e1.2]? = some ex1 →
            (publishAll JobRepositoryGrin.init
              [jobAt 1 4, jobAt 2 5, jobAt 3 5]).handles[e2.2]? = some ex2 →
              ex1.isStale = false → ex2.isStale = false →
                ex1.sjob_.height_ = ex2.sjob_.height_) :=
  ⟨reachable_publishAll _,
    reachable_single_current_height
      (publishAll JobRepositoryGrin.init [jobAt 1 4, jobAt 2 5, jobAt 3 5])
      (reachable_publishAll _)⟩


/-! ## The header copy -/

/-- A copy from a buffer that is not empty returns one byte for each offset read. -/
theorem memcpy_of_nonempty (bin : List Nat) (after : Nat → Nat) (n : Nat) (h : bin ≠ []) :
    memcpy bin after n = Exec.ret ((memcpyOffsets n).map (readByte bin after)) := by
  cases bin with
  | nil => exact absurd rfl h
  | cons b bs => simp [memcpy]

/-- A copy of one byte or more from an empty buffer stops the process. -/
theorem memcpy_of_empty (after : Nat → Nat) (n : Nat) (h : 0 < n) :
    memcpy [] after n = Exec.crash Fault.nullRead := by
  simp [memcpy, h]

/-- A byte read at an offset past the end of the buffer is not a byte of the buffer: it
is the byte that the memory holds there. -/
theorem readByte_past_end (bin : List Nat) (after : Nat → Nat) (i : Nat)
    (h : bin.length ≤ i) : readByte bin after i = after (i - bin.length) := by
  unfold readByte
  rw [dif_neg (by omega)]

/-- Whenever `prePow_` decodes to fewer bytes than `sizeof(PreProofGrin)`, the copy of
line 60 reads past the end of the decoded buffer, starting with the byte right after
it. -/
theorem offsetsPastEnd_of_short (P : Primitives) (sjob : StratumJobGrin)
    (hshort : (P.ParseHex sjob.prePow_).length < P.sizeofPreProofGrin) :
    (P.ParseHex sjob.prePow_).length ∈ offsetsPastEnd P sjob := by
  simp [offsetsPastEnd, memcpyOffsets, hshort]

/-- C11 (header copy), the code at failing inputs, where a pre-proof has 4 bytes.
A fresh handle whose `prePow_` is "0102" decodes to 2 bytes: the copy reads the offsets 2
and 3 past the end of the decoded buffer, the verifier is handed the bytes that the memory
holds there, and the verdict follows them, `ACCEPT` when they satisfy the verifier and
`INVALID_SOLUTION` when they do not.  A fresh handle whose `prePow_` is empty, or is not
hexadecimal, decodes to no byte: the copy stops the process and no status is assigned. -/
theorem checkAndUpdateShare_short_header_overread :
    overreadPrimitives.ParseHex (headerJob "0102").prePow_ = [1, 2] ∧
    (overreadPrimitives.ParseHex (headerJob "0102").prePow_).length <
      overreadPrimitives.sizeofPreProofGrin ∧
    offsetsPastEnd overreadPrimitives (headerJob "0102") = [2, 3] ∧
    buildPreProof overreadPrimitives countingMemory freshShare (headerJob "0102") =
      Exec.ret { prePow := [1, 2, countingMemory 0, countingMemory 1], nonce := 7 } ∧
    checkAndUpdateShare overreadPrimitives plainServer countingMemory freshShare
        (some ⟨headerJob "0102", true, false⟩) (benchProof 600) ladder3 =
      Exec.ret { freshShare with status := StratumStatus.ACCEPT, sharediff := 500 } ∧
    checkAndUpdateShare overreadPrimitives plainServer zeroMemory freshShare
        (some ⟨headerJob "0102", true, false⟩) (benchProof 600) ladder3 =
      Exec.ret { freshShare with status := StratumStatus.INVALID_SOLUTION } ∧
    overreadPrimitives.ParseHex (headerJob "").prePow_ = [] ∧
    checkAndUpdateShare overreadPrimitives plainServer countingMemory freshShare
        (some ⟨headerJob "", true, false⟩) (benchProof 600) ladder3 =
      Exec.crash Fault.nullRead ∧
    overreadPrimitives.ParseHex (headerJob "zz").prePow_ = [] ∧
    checkAndUpdateShare overreadPrimitives plainServer countingMemory freshShare
        (some ⟨headerJob "zz", true, false⟩) (benchProof 600) ladder3 =
      Exec.crash Fault.nullRead := by
  decide

/-- For every fresh handle whose `prePow_` decodes to no byte while a pre-proof has at
least one, the call stops in the copy of line 60, whatever the share, the proof, the
ladder and the flags are. -/
theorem checkAndUpdateShare_empty_header_crash (P : Primitives) (srv : StratumServerGrin)
    (after : Nat → Nat) (share : ShareGrin) (ex : StratumJobEx) (proofs : List Nat)
    (jobDiffs : StdSet) (hfresh : ex.isStale = false)
    (hempty : P.ParseHex ex.sjob_.prePow_ = []) (hsize : 0 < P.sizeofPreProofGrin) :
    checkAndUpdateShare P srv after share (some ex) proofs jobDiffs =
      Exec.crash Fault.nullRead := by
  have hb : buildPreProof P after share ex.sjob_ = Exec.crash Fault.nullRead := by
    simp [buildPreProof, hempty, memcpy_of_empty after _ hsize]
  exact (checkAndUpdateShare_copy_crash P srv after share ex proofs jobDiffs _ hfresh hb).1

/-- For every fresh handle whose `prePow_` decodes to a buffer that is not empty and is
shorter than a pre-proof, the copy of line 60 completes, and each byte of the pre-proof
from the length of the buffer on is the byte that the memory holds past the end of the
buffer. -/
theorem buildPreProof_short_header (P : Primitives) (after : Nat → Nat) (share : ShareGrin)
    (sjob : StratumJobGrin) (hne : P.ParseHex sjob.prePow_ ≠ [])
    (i : Nat) (hlo : (P.ParseHex sjob.prePow_).length ≤ i) (hhi : i < P.sizeofPreProofGrin) :
    ∃ preProof, buildPreProof P after share sjob = Exec.ret preProof ∧
      preProof.prePow[i]? = some (after (i - (P.ParseHex sjob.prePow_).length)) := by
  refine ⟨PreProofGrin.mk
    ((memcpyOffsets P.sizeofPreProofGrin).map (readByte (P.ParseHex sjob.prePow_) after))
    share.nonce, ?_, ?_⟩
  · simp [buildPreProof, memcpy_of_nonempty _ after _ hne]
  · simp [memcpyOffsets, List.getElem?_range hhi, readByte_past_end _ after i hlo]

/-! ## The solved-share record -/

theorem proofArray_foldl_small (rest : List Nat) (acc : String)
    (h : ∀ b ∈ rest, b < 2 ^ 31) :
    rest.foldl (fun a b => a ++ "," ++ toString (toInt b)) acc =
      String.intercalate.go acc "," (rest.map toString) := by
  induction rest generalizing acc with
  | nil => rfl
  | cons b bs ih =>
    have hb : b < 2 ^ 31 := h b (List.mem_cons_self _ _)
    have hmod : b % 2 ^ 32 = b := Nat.mod_eq_of_lt (by omega)
    have hto : toString (toInt b) = toString b := by
      unfold toInt
      rw [hmod, if_pos hb]
      rfl
    rw [List.foldl_cons, ih _ (fun x hx => h x (List.mem_cons_of_mem _ hx)), hto]
    rfl

/-- Where the code and the specification agree: when every element after the first is
below 2^31, `proofArray` is the comma-joined decimal text of the proof. -/
theorem proofArray_eq_commaJoinedDecimals (proofs : List Nat)
    (h : ∀ b ∈ proofs.tail, b < 2 ^ 31) :
    proofArray proofs = commaJoinedDecimals proofs := by
  cases proofs with
  | nil => rfl
  | cons front rest =>
    show rest.foldl (fun a b => a ++ "," ++ toString (toInt b)) (toString front) =
      ",".intercalate ((front :: rest).map toString)
    rw [proofArray_foldl_small rest _ (by simpa using h)]
    rfl

/-- C12 (proof encoding), the code at failing inputs.  For the proof 1, 4294967301 the
text between the brackets is "1,5", not "1,4294967301", and it is the text produced for
the proof 1, 5 as well, so that no reading of the record can tell the two proofs apart; for
the proof 0, 2147483648 the text is "0,-2147483648", whose second item is not an unsigned
decimal. -/
theorem proofArray_truncates_elements :
    proofArray [1, 4294967301] = "1,5" ∧
    commaJoinedDecimals [1, 4294967301] = "1,4294967301" ∧
    proofArray [1, 4294967301] = proofArray [1, 5] ∧
    proofArray [0, 2147483648] = "0,-2147483648" ∧
    commaJoinedDecimals [0, 2147483648] = "0,2147483648" ∧
    (sendSolvedShare2Kafka id (fun _ => true) ⟨JobRepositoryGrin.init, [], []⟩ freshShare
        (some ⟨benchJob 1000, true, false⟩) [1, 4294967301] benchWorker).state.channel =
      ["\x7b\"jobId\":1,\"nodeJobId\":1,\"height\":5,\"edgeBits\":29," ++
        "\"nonce\":7,\"proofs\":[1,5],\"userId\":3,\"workerId\":-8," ++
        "\"workerFullName\":\"alice.rig\"\x7d"] := by
  decide


/-! ## The job repository: insertion and notification -/

/-- In a repository whose table refers to handles of the store only, the reference that
the next handle will get is not in the table. -/
theorem wellFormed_next_not_mem (repo : JobRepositoryGrin) (hwf : repo.WellFormed = true) :
    repo.handles.length ∉ repo.exJobs_.map Prod.snd := by
  intro hmem
  obtain ⟨e, he, heq⟩ := List.mem_map.mp hmem
  have hlt : e.2 < repo.handles.length := by
    have := List.all_eq_true.mp hwf e he
    simpa using this
  omega

/-- Every reachable repository has a table that refers to handles of the store only. -/
theorem reachable_wellFormed (repo : JobRepositoryGrin) (hreach : Reachable repo) :
    repo.WellFormed = true := by
  induction hreach with
  | init => rfl
  | publish repo sjob _ ih =>
    unfold JobRepositoryGrin.WellFormed
    rw [List.all_eq_true]
    intro e he
    rw [broadcastStratumJob_exJobs] at he
    rw [broadcastStratumJob_handles_length]
    rcases mapAssign_mem _ _ _ _ he with rfl | hold
    · simp
    · have := List.all_eq_true.mp ih e hold
      have hlt : e.2 < repo.handles.length := by simpa using this
      simp
      omega

/-- C13 (publish inserts).  For every repository state (its table referring to handles of
the store, as a table of `shared_ptr` does) and every job, after `broadcastStratumJob` the
table maps the job's id to the newly created handle, which wraps the job and is not stale;
every other job id maps to what it mapped to before, so nothing is evicted; and every
handle of the store keeps its job and its clean flag and, if it was stale, is still
stale. -/
theorem broadcastStratumJob_inserts (repo : JobRepositoryGrin) (sjob : StratumJobGrin)
    (hwf : repo.WellFormed = true) :
    mapFind (broadcastStratumJob repo sjob).exJobs_ sjob.jobId_ = some repo.handles.length ∧
      (∃ ex, (broadcastStratumJob repo sjob).handles[repo.handles.length]? = some ex ∧
        ex.sjob_ = sjob ∧ ex.isStale = false) ∧
      (∀ k, k ≠ sjob.jobId_ →
        mapFind (broadcastStratumJob repo sjob).exJobs_ k = mapFind repo.exJobs_ k) ∧
      ∀ (r : Nat) (ex : StratumJobEx), repo.handles[r]? = some ex →
        ∃ ex1 : StratumJobEx, (broadcastStratumJob repo sjob).handles[r]? = some ex1 ∧
          ex1.sjob_ = ex.sjob_ ∧ ex1.isClean_ = ex.isClean_ ∧
          (ex.isStale = true → ex1.isStale = true) := by
  have hnot := wellFormed_next_not_mem repo hwf
  refine ⟨?_, ?_, ?_, ?_⟩
  · rw [broadcastStratumJob_exJobs, mapFind_mapAssign]
    simp
  · refine ⟨createStratumJobEx sjob (decide (sjob.height_ ≠ repo.lastHeight_)), ?_, rfl, rfl⟩
    by_cases h : sjob.height_ = repo.lastHeight_
    · simp [broadcastStratumJob, h, List.getElem?_append]
    · simp only [broadcastStratumJob, h, ne_eq, not_false_eq_true, decide_True, if_true,
        markAllStale_getElem?, List.getElem?_append, if_neg hnot]
      simp
  · intro k hk
    rw [broadcastStratumJob_exJobs, mapFind_mapAssign, if_neg hk]
  · intro r ex hex
    exact broadcastStratumJob_handle_kept repo sjob r ex hex

/-- Witness of C13: after jobs of ids 1 and 2 at heights 4 and 5, a job of id 3 at
height 6. -/
theorem broadcastStratumJob_inserts_witness :
    (publishAll JobRepositoryGrin.init [jobAt 1 4, jobAt 2 5]).WellFormed = true ∧
    (mapFind (broadcastStratumJob (publishAll JobRepositoryGrin.init [jobAt 1 4, jobAt 2 5])
          (jobAt 3 6)).exJobs_ (jobAt 3 6).jobId_ =
        some (publishAll JobRepositoryGrin.init [jobAt 1 4, jobAt 2 5]).handles.length ∧
      (∃ ex, (broadcastStratumJob (publishAll JobRepositoryGrin.init [jobAt 1 4, jobAt 2 5])
          (jobAt 3 6)).handles[
            (publishAll JobRepositoryGrin.init [jobAt 1 4, jobAt 2 5]).handles.length]? =
          some ex ∧ ex.sjob_ = jobAt 3 6 ∧ ex.isStale = false) ∧
      (∀ k, k ≠ (jobAt 3 6).jobId_ →
        mapFind (broadcastStratumJob (publishAll JobRepositoryGrin.init [jobAt 1 4, jobAt 2 5])
            (jobAt 3 6)).exJobs_ k =
          mapFind (publishAll JobRepositoryGrin.init [jobAt 1 4, jobAt 2 5]).exJobs_ k) ∧
      ∀ (r : Nat) (ex : StratumJobEx),
        (publishAll JobRepositoryGrin.init [jobAt 1 4, jobAt 2 5]).handles[r]? = some ex →
        ∃ ex1 : StratumJobEx, (broadcastStratumJob (publishAll JobRepositoryGrin.init [jobAt 1 4, jobAt 2 5])
            (jobAt 3 6)).handles[r]? = some ex1 ∧
          ex1.sjob_ = ex.sjob_ ∧ ex1.isClean_ = ex.isClean_ ∧
          (ex.isStale = true → ex1.isStale = true)) :=
  ⟨by decide,
    broadcastStratumJob_inserts (publishAll JobRepositoryGrin.init [jobAt 1 4, jobAt 2 5])
      (jobAt 3 6) (by decide)⟩

/-- The publish of the witness above, evaluated: the table holds the three ids, the two
older handles are stale and the new one is not. -/
theorem broadcastStratumJob_inserts_example :
    (publishAll JobRepositoryGrin.init [jobAt 1 4, jobAt 2 5, jobAt 3 6]).exJobs_ =
      [(1, 0), (2, 1), (3, 2)] ∧
    (publishAll JobRepositoryGrin.init [jobAt 1 4, jobAt 2 5, jobAt 3 6]).handles.map
        StratumJobEx.isStale = [true, true, false] := by
  decide

/-- C17 (clean flag and last published height).  For every repository state and every
job, `broadcastStratumJob` makes exactly one `sendMiningNotify` call, with the handle it
has just created and inserted under the job's id; that handle wraps the job and its clean
flag is set exactly when the job's height differs from the last published height; after
the call `lastHeight_` is the job's height.  On the initial repository the first job is
clean exactly when its height is not 0. -/
theorem broadcastStratumJob_notifies_clean (repo : JobRepositoryGrin) (sjob : StratumJobGrin) :
    (broadcastStratumJob repo sjob).notified = repo.notified ++ [repo.handles.length] ∧
      mapFind (broadcastStratumJob repo sjob).exJobs_ sjob.jobId_ = some repo.handles.length ∧
      (∃ ex, (broadcastStratumJob repo sjob).handles[repo.handles.length]? = some ex ∧
        ex.sjob_ = sjob ∧ (ex.isClean_ = true ↔ sjob.height_ ≠ repo.lastHeight_) ∧
        (ex.isClean_ = false ↔ sjob.height_ = repo.lastHeight_)) ∧
      (broadcastStratumJob repo sjob).lastHeight_ = sjob.height_ ∧
      (broadcastStratumJob JobRepositoryGrin.init sjob).notified = [0] ∧
      ∃ ex, (broadcastStratumJob JobRepositoryGrin.init sjob).handles[0]? = some ex ∧
        ex.sjob_ = sjob ∧ (ex.isClean_ = true ↔ sjob.height_ ≠ 0) := by
  have hnew : ∀ repo1 : JobRepositoryGrin,
      ∃ ex, (broadcastStratumJob repo1 sjob).handles[repo1.handles.length]? = some ex ∧
        ex.sjob_ = sjob ∧ (ex.isClean_ = true ↔ sjob.height_ ≠ repo1.lastHeight_) ∧
        (ex.isClean_ = false ↔ sjob.height_ = repo1.lastHeight_) := by
    intro repo1
    obtain ⟨ex, h1, h2, h3⟩ := broadcastStratumJob_new_handle repo1 sjob
    refine ⟨ex, h1, h2, ?_, ?_⟩
    · rw [h3]
      simp
    · rw [h3]
      simp
  refine ⟨rfl, ?_, hnew repo, broadcastStratumJob_lastHeight repo sjob, rfl, ?_⟩
  · rw [broadcastStratumJob_exJobs, mapFind_mapAssign]
    simp
  · obtain ⟨ex, h1, h2, h3, _⟩ := hnew JobRepositoryGrin.init
    exact ⟨ex, h1, h2, h3⟩

/-- The clean flags and notifications of a run, evaluated: heights 0, 5, 5, 4 published
to the initial repository give the flags false, true, false, true, one notification per
job, and a last published height of 4. -/
theorem broadcastStratumJob_notifies_clean_example :
    (publishAll JobRepositoryGrin.init [jobAt 1 0, jobAt 2 5, jobAt 3 5, jobAt 4 4]).handles.map
        StratumJobEx.isClean_ = [false, true, false, true] ∧
    (publishAll JobRepositoryGrin.init [jobAt 1 0, jobAt 2 5, jobAt 3 5, jobAt 4 4]).notified =
      [0, 1, 2, 3] ∧
    (publishAll JobRepositoryGrin.init [jobAt 1 0, jobAt 2 5, jobAt 3 5, jobAt 4 4]).lastHeight_ =
      4 := by
  decide


/-! ## The hand-off of a solved share -/

/-- C14 (publish failure is observable).  For every share, solved or not, every present
handle, proof, worker, channel and server state, `sendSolvedShare2Kafka` passes the record
to `ServerBase::sendSolvedShare2Kafka` exactly once.  If that hand-off fails, the failure
is raised to the caller as the error `PublishFailure` and the channel is as before; if it
succeeds, the call returns and the record is the last one on the channel.  In both cases
the job repository and the share, its verdict included, are as before. -/
theorem sendSolvedShare2Kafka_reports_failure (filterWorkerName : String → String)
    (accepts : String → Bool) (st : ServerState) (share : ShareGrin) (ex : StratumJobEx)
    (proofs : List Nat) (worker : StratumWorker) :
    (sendSolvedShare2Kafka filterWorkerName accepts st share (some ex) proofs
        worker).state.handOffs =
      st.handOffs ++ [solvedShareMsg filterWorkerName share ex.sjob_ proofs worker] ∧
    (sendSolvedShare2Kafka filterWorkerName accepts st share (some ex) proofs worker).outcome =
      (if accepts (solvedShareMsg filterWorkerName share ex.sjob_ proofs worker) then
        Call.returned ()
      else Call.raised Error.PublishFailure) ∧
    (sendSolvedShare2Kafka filterWorkerName accepts st share (some ex) proofs
        worker).state.channel =
      (if accepts (solvedShareMsg filterWorkerName share ex.sjob_ proofs worker) then
        st.channel ++ [solvedShareMsg filterWorkerName share ex.sjob_ proofs worker]
      else st.channel) ∧
    (sendSolvedShare2Kafka filterWorkerName accepts st share (some ex) proofs
        worker).state.repo = st.repo ∧
    (sendSolvedShare2Kafka filterWorkerName accepts st share (some ex) proofs worker).share =
      share := by
  unfold sendSolvedShare2Kafka ServerBase_sendSolvedShare2Kafka
  by_cases h : accepts (solvedShareMsg filterWorkerName share ex.sjob_ proofs worker) = true
  · simp [h]
  · simp [h]

/-- Scenario 6 of the specification, evaluated: a solved share is handed to a channel on
which every hand-off fails, then to one that takes every record.  The first call raises
`PublishFailure` and leaves the channel as it was, the second returns and leaves the
record on the channel; the repository and the share are untouched by both. -/
theorem sendSolvedShare2Kafka_examples :
    sendSolvedShare2Kafka id (fun _ => false) benchState
        { freshShare with status := StratumStatus.SOLVED }
        (some ⟨benchJob 1000, true, false⟩) [1, 2] benchWorker =
      { outcome := Call.raised Error.PublishFailure
        state :=
          { repo := benchState.repo
            handOffs := ["earlier",
              "\x7b\"jobId\":1,\"nodeJobId\":1,\"height\":5,\"edgeBits\":29," ++
              "\"nonce\":7,\"proofs\":[1,2],\"userId\":3,\"workerId\":-8," ++
              "\"workerFullName\":\"alice.rig\"\x7d"]
            channel := ["earlier"] }
        share := { freshShare with status := StratumStatus.SOLVED } } ∧
    sendSolvedShare2Kafka id (fun _ => true) benchState
        { freshShare with status := StratumStatus.SOLVED }
        (some ⟨benchJob 1000, true, false⟩) [1, 2] benchWorker =
      { outcome := Call.returned ()
        state :=
          { repo := benchState.repo
            handOffs := ["earlier",
              "\x7b\"jobId\":1,\"nodeJobId\":1,\"height\":5,\"edgeBits\":29," ++
              "\"nonce\":7,\"proofs\":[1,2],\"userId\":3,\"workerId\":-8," ++
              "\"workerFullName\":\"alice.rig\"\x7d"]
            channel := ["earlier",
              "\x7b\"jobId\":1,\"nodeJobId\":1,\"height\":5,\"edgeBits\":29," ++
              "\"nonce\":7,\"proofs\":[1,2],\"userId\":3,\"workerId\":-8," ++
              "\"workerFullName\":\"alice.rig\"\x7d"] }
        share := { freshShare with status := StratumStatus.SOLVED } } := by
  decide

/-! ## Share validation: further rules -/

/-- C15 (division by the network difficulty), the code at a failing input: a fresh handle
whose job has network difficulty 0 and a share whose proof verifies.  The call stops at
the division of line 71 and assigns no status. -/
theorem checkAndUpdateShare_zero_difficulty_crash :
    proofVerifies benchPrimitives zeroMemory freshShare (benchJob 0) (benchProof 600) = true ∧
    checkAndUpdateShare benchPrimitives plainServer zeroMemory freshShare
        (some ⟨benchJob 0, true, false⟩) (benchProof 600) ladder3 =
      Exec.crash Fault.divisionByZero ∧
    checkAndUpdateShareWrites benchPrimitives plainServer zeroMemory freshShare
        (some ⟨benchJob 0, true, false⟩) (benchProof 600) ladder3 =
      Exec.crash Fault.divisionByZero := by
  decide

/-- The two ways the ladder scan can end, with the setter calls of each. -/
theorem scanLadder_cases (sim : Bool) (shareDiff : Nat) (share : ShareGrin) (l : List Nat) :
    (scanLadder sim shareDiff share l = share.set_status StratumStatus.LOW_DIFFICULTY ∧
        scanLadderWrites sim shareDiff l =
          [ShareWrite.set_status StratumStatus.LOW_DIFFICULTY]) ∨
      ∃ d ∈ l,
        scanLadder sim shareDiff share l =
            (share.set_sharediff d).set_status StratumStatus.ACCEPT ∧
          scanLadderWrites sim shareDiff l =
            [ShareWrite.set_sharediff d, ShareWrite.set_status StratumStatus.ACCEPT] := by
  induction l with
  | nil => left; exact ⟨rfl, rfl⟩
  | cons d rest ih =>
    unfold scanLadder scanLadderWrites
    by_cases h : (sim || decide (shareDiff ≥ d)) = true
    · right
      exact ⟨d, List.mem_cons_self _ _, by rw [if_pos h], by rw [if_pos h]⟩
    · rw [if_neg h, if_neg h]
      rcases ih with h1 | ⟨d1, hd1, h1, h2⟩
      · left; exact h1
      · right; exact ⟨d1, List.mem_cons_of_mem _ hd1, h1, h2⟩

/-- The forms of a returning run: the status alone is set, to `JOB_NOT_FOUND`,
`INVALID_SOLUTION`, `SOLVED` or `LOW_DIFFICULTY`, or a threshold of the ladder is assigned
and the status is set to `ACCEPT`. -/
theorem checkAndUpdateShare_forms (P : Primitives) (srv : StratumServerGrin)
    (after : Nat → Nat) (share : ShareGrin) (exjob : Option StratumJobEx) (proofs : List Nat)
    (jobDiffs : StdSet) (graded : ShareGrin)
    (hret : checkAndUpdateShare P srv after share exjob proofs jobDiffs = Exec.ret graded) :
    (∃ s, s ≠ StratumStatus.ACCEPT ∧ graded = share.set_status s ∧
        checkAndUpdateShareWrites P srv after share exjob proofs jobDiffs =
          Exec.ret [ShareWrite.set_status s]) ∨
      ∃ d ∈ jobDiffs.elems,
        graded = (share.set_sharediff d).set_status StratumStatus.ACCEPT ∧
          checkAndUpdateShareWrites P srv after share exjob proofs jobDiffs =
            Exec.ret [ShareWrite.set_sharediff d, ShareWrite.set_status StratumStatus.ACCEPT] := by
  cases exjob with
  | none => simp [checkAndUpdateShare] at hret
  | some ex =>
    by_cases hstale : ex.isStale = true
    · left
      refine ⟨StratumStatus.JOB_NOT_FOUND, by decide, ?_, ?_⟩
      · simp [checkAndUpdateShare, hstale] at hret
        exact hret.symm
      · simp [checkAndUpdateShareWrites, hstale]
    · have hfresh : ex.isStale = false := by simpa using hstale
      cases hb : buildPreProof P after share ex.sjob_ with
      | crash f =>
        rw [(checkAndUpdateShare_copy_crash P srv after share ex proofs jobDiffs f hfresh
          hb).1] at hret
        cases hret
      | ret preProof =>
        by_cases hverify : P.VerifyPowGrin preProof share.edgebits proofs = true
        · have hpv := proofVerifies_of_built P after share ex.sjob_ proofs preProof hb hverify
          have hc0 := checkAndUpdateShare_verified P srv after share ex proofs jobDiffs hfresh
            hpv
          have hw0 := checkAndUpdateShareWrites_verified P srv after share ex proofs jobDiffs
            hfresh hpv
          by_cases hzero : ex.sjob_.difficulty_ = 0
          · rw [hc0, if_pos hzero] at hret
            cases hret
          · rw [if_neg hzero] at hc0 hw0
            by_cases hsolved : (srv.isSubmitInvalidBlock_ ||
                decide (shareDiffOf P after share ex.sjob_ proofs ≥ ex.sjob_.difficulty_)) = true
            · rw [if_pos hsolved] at hc0 hw0
              left
              refine ⟨StratumStatus.SOLVED, by decide, ?_, hw0⟩
              rw [hc0] at hret
              exact (Exec.ret.inj hret).symm
            · rw [if_neg hsolved] at hc0 hw0
              have hc : graded = scanLadder srv.isEnableSimulator_
                  (shareDiffOf P after share ex.sjob_ proofs) share jobDiffs.rbegin_rend := by
                rw [hc0] at hret
                exact (Exec.ret.inj hret).symm
              rcases scanLadder_cases srv.isEnableSimulator_
                (shareDiffOf P after share ex.sjob_ proofs) share jobDiffs.rbegin_rend with
                ⟨h1, h2⟩ | ⟨d, hd, h1, h2⟩
              · left
                exact ⟨StratumStatus.LOW_DIFFICULTY, by decide, by rw [hc, h1], by rw [hw0, h2]⟩
              · right
                exact ⟨d, (jobDiffs.mem_rbegin_rend d).mp hd, by rw [hc, h1], by rw [hw0, h2]⟩
        · have hv : P.VerifyPowGrin preProof share.edgebits proofs = false := by
            simpa using hverify
          obtain ⟨hc, hw⟩ := checkAndUpdateShare_rejected P srv after share ex proofs jobDiffs
            preProof hfresh hb hv
          left
          refine ⟨StratumStatus.INVALID_SOLUTION, by decide, ?_, hw⟩
          rw [hc] at hret
          exact (Exec.ret.inj hret).symm

/-- C16 (frame).  On every input on which the call returns, the returned share has the
nonce, the edge bits and the height of the submitted one; `set_sharediff` is called
exactly when the returned status is `ACCEPT`, and then with a threshold of the ladder;
when the returned status is not `ACCEPT` the share keeps its `sharediff`.  The returned
share is the submitted one after the recorded setter calls, which are the only writes of
the run. -/
theorem checkAndUpdateShare_frame (P : Primitives) (srv : StratumServerGrin)
    (after : Nat → Nat) (share : ShareGrin) (exjob : Option StratumJobEx) (proofs : List Nat)
    (jobDiffs : StdSet) (graded : ShareGrin)
    (hret : checkAndUpdateShare P srv after share exjob proofs jobDiffs = Exec.ret graded) :
    graded.nonce = share.nonce ∧ graded.edgebits = share.edgebits ∧
      graded.height = share.height ∧
      (graded.status ≠ StratumStatus.ACCEPT → graded.sharediff = share.sharediff) ∧
      (graded.status = StratumStatus.ACCEPT → graded.sharediff ∈ jobDiffs.elems) ∧
      ∃ writes, checkAndUpdateShareWrites P srv after share exjob proofs jobDiffs =
          Exec.ret writes ∧
        graded = writes.foldl ShareWrite.apply share ∧
        ((∃ d, ShareWrite.set_sharediff d ∈ writes) ↔ graded.status = StratumStatus.ACCEPT) := by
  rcases checkAndUpdateShare_forms P srv after share exjob proofs jobDiffs graded hret with
    ⟨s, hs, hg, hw⟩ | ⟨d, hd, hg, hw⟩
  · subst hg
    refine ⟨rfl, rfl, rfl, fun _ => rfl, fun h => absurd h hs, _, hw, rfl, ?_⟩
    constructor
    · rintro ⟨d, hd⟩
      simp at hd
    · intro h
      exact absurd h hs
  · subst hg
    refine ⟨rfl, rfl, rfl, fun h => absurd rfl h, fun _ => hd, _, hw, rfl, ?_⟩
    constructor
    · intro _
      rfl
    · intro _
      exact ⟨d, by simp⟩

/-- Witness of C16: a share with a prior `sharediff` of 0 graded `ACCEPT` with the
threshold 500. -/
theorem checkAndUpdateShare_frame_witness :
    checkAndUpdateShare benchPrimitives plainServer zeroMemory freshShare
        (some ⟨benchJob 1000, true, false⟩) (benchProof 600) ladder3 =
      Exec.ret { freshShare with status := StratumStatus.ACCEPT, sharediff := 500 } ∧
    ({ freshShare with status := StratumStatus.ACCEPT, sharediff := 500 } : ShareGrin).nonce =
        freshShare.nonce ∧
      ({ freshShare with status := StratumStatus.ACCEPT, sharediff := 500 } : ShareGrin).edgebits =
        freshShare.edgebits ∧
      ({ freshShare with status := StratumStatus.ACCEPT, sharediff := 500 } : ShareGrin).height =
        freshShare.height ∧
      (({ freshShare with status := StratumStatus.ACCEPT, sharediff := 500 } : ShareGrin).status ≠
          StratumStatus.ACCEPT →
        ({ freshShare with status := StratumStatus.ACCEPT, sharediff := 500 } :
          ShareGrin).sharediff = freshShare.sharediff) ∧
      (({ freshShare with status := StratumStatus.ACCEPT, sharediff := 500 } : ShareGrin).status =
          StratumStatus.ACCEPT →
        ({ freshShare with status := StratumStatus.ACCEPT, sharediff := 500 } :
          ShareGrin).sharediff ∈ ladder3.elems) ∧
      ∃ writes, checkAndUpdateShareWrites benchPrimitives plainServer zeroMemory freshShare
          (some ⟨benchJob 1000, true, false⟩) (benchProof 600) ladder3 = Exec.ret writes ∧
        ({ freshShare with status := StratumStatus.ACCEPT, sharediff := 500 } : ShareGrin) =
          writes.foldl ShareWrite.apply freshShare ∧
        ((∃ d, ShareWrite.set_sharediff d ∈ writes) ↔
          ({ freshShare with status := StratumStatus.ACCEPT, sharediff := 500 } :
            ShareGrin).status = StratumStatus.ACCEPT) :=
  ⟨by decide,
    checkAndUpdateShare_frame benchPrimitives plainServer zeroMemory freshShare
      (some ⟨benchJob 1000, true, false⟩) (benchProof 600) ladder3
      { freshShare with status := StratumStatus.ACCEPT, sharediff := 500 } (by decide)⟩

/-- C18 (simulator flag).  For a fresh handle, a share whose proof verifies, the
accept-all-as-solved flag off, a share difficulty below the network difficulty (which is
therefore at least 1) and the simulator flag on: with an empty ladder
the call returns the share with status `LOW_DIFFICULTY`; with a ladder that is not empty
it returns the share with status `ACCEPT` and `sharediff` set to the greatest threshold of
the ladder, whatever the share difficulty is. -/
theorem checkAndUpdateShare_simulator (P : Primitives) (srv : StratumServerGrin)
    (after : Nat → Nat) (share : ShareGrin) (ex : StratumJobEx) (proofs : List Nat)
    (jobDiffs : StdSet) (hfresh : ex.isStale = false)
    (hverify : proofVerifies P after share ex.sjob_ proofs = true)
    (hflag : srv.isSubmitInvalidBlock_ = false) (hsim : srv.isEnableSimulator_ = true)
    (hlt : shareDiffOf P after share ex.sjob_ proofs < ex.sjob_.difficulty_) :
    (jobDiffs.elems = [] →
        checkAndUpdateShare P srv after share (some ex) proofs jobDiffs =
          Exec.ret { share with status := StratumStatus.LOW_DIFFICULTY }) ∧
      (jobDiffs.elems ≠ [] →
        ∃ d ∈ jobDiffs.elems, (∀ d1 ∈ jobDiffs.elems, d1 ≤ d) ∧
          checkAndUpdateShare P srv after share (some ex) proofs jobDiffs =
            Exec.ret { share with status := StratumStatus.ACCEPT, sharediff := d }) := by
  rw [checkAndUpdateShare_reaches_scan P srv after share ex proofs jobDiffs hfresh hverify
    hflag hlt, hsim]
  constructor
  · intro hnil
    simp [StdSet.rbegin_rend, hnil, scanLadder, ShareGrin.set_status]
  · intro hne
    have hsorted := jobDiffs.rbegin_rend_sorted
    cases hrev : jobDiffs.rbegin_rend with
    | nil =>
      exfalso
      apply hne
      simpa [StdSet.rbegin_rend] using hrev
    | cons d rest =>
      rw [hrev] at hsorted
      have hs := List.sorted_cons.mp hsorted
      have hmem : ∀ x, x ∈ jobDiffs.elems ↔ x ∈ d :: rest := by
        intro x
        rw [← hrev, jobDiffs.mem_rbegin_rend]
      refine ⟨d, (hmem d).mpr (List.mem_cons_self _ _), ?_, ?_⟩
      · intro d1 hd1
        rcases List.mem_cons.mp ((hmem d1).mp hd1) with rfl | h1
        · exact le_refl _
        · exact le_of_lt (hs.1 d1 h1)
      · simp [scanLadder, ShareGrin.set_status, ShareGrin.set_sharediff]

/-- Witness of C18: share difficulty 5 against the ladder {10, 100} with the simulator
flag on. -/
theorem checkAndUpdateShare_simulator_witness :
    (ladder2.elems = [] →
        checkAndUpdateShare benchPrimitives ⟨false, true⟩ zeroMemory freshShare
            (some ⟨benchJob 1000, true, false⟩) (benchProof 5) ladder2 =
          Exec.ret { freshShare with status := StratumStatus.LOW_DIFFICULTY }) ∧
      (ladder2.elems ≠ [] →
        ∃ d ∈ ladder2.elems, (∀ d1 ∈ ladder2.elems, d1 ≤ d) ∧
          checkAndUpdateShare benchPrimitives ⟨false, true⟩ zeroMemory freshShare
              (some ⟨benchJob 1000, true, false⟩) (benchProof 5) ladder2 =
            Exec.ret { freshShare with status := StratumStatus.ACCEPT, sharediff := d }) :=
  checkAndUpdateShare_simulator benchPrimitives ⟨false, true⟩ zeroMemory freshShare
    ⟨benchJob 1000, true, false⟩ (benchProof 5) ladder2 rfl (by decide) rfl rfl (by decide)

/-- The simulator flag, evaluated: share difficulty 5 is credited 100 on the ladder
{10, 100} and graded `LOW_DIFFICULTY` on the empty ladder. -/
theorem checkAndUpdateShare_simulator_examples :
    checkAndUpdateShare benchPrimitives ⟨false, true⟩ zeroMemory freshShare
        (some ⟨benchJob 1000, true, false⟩) (benchProof 5) ladder2 =
      Exec.ret { freshShare with status := StratumStatus.ACCEPT, sharediff := 100 } ∧
    checkAndUpdateShare benchPrimitives ⟨false, true⟩ zeroMemory freshShare
        (some ⟨benchJob 1000, true, false⟩) (benchProof 5) ⟨[], by decide⟩ =
      Exec.ret { freshShare with status := StratumStatus.LOW_DIFFICULTY } := by
  decide


/-- C19, the claim as stated fails.  A share of height 9 against a job of height 5 is
graded `SOLVED`, and `ACCEPT` with a smaller proof; and where the difficulty formula
depends on the height, a share of height 5 against a job of height 6 is graded with the
difficulty of height 5 (`SOLVED`), while the same share with height 6 is graded
`LOW_DIFFICULTY`: the verdict follows the height written in the share. -/
theorem checkAndUpdateShare_height_counterexample :
    ({ freshShare with height := 9 } : ShareGrin).height ≠ (benchJob 1000).height_ ∧
    checkAndUpdateShare benchPrimitives plainServer zeroMemory { freshShare with height := 9 }
        (some ⟨benchJob 1000, true, false⟩) (benchProof 2000000) ladder3 =
      Exec.ret { freshShare with height := 9, status := StratumStatus.SOLVED } ∧
    checkAndUpdateShare benchPrimitives plainServer zeroMemory { freshShare with height := 9 }
        (some ⟨benchJob 1000, true, false⟩) (benchProof 600) ladder3 =
      Exec.ret { freshShare with height := 9, status := StratumStatus.ACCEPT, sharediff := 500 } ∧
    freshShare.height ≠ (jobAt 1 6).height_ ∧
    checkAndUpdateShare heightPrimitives plainServer zeroMemory freshShare
        (some ⟨jobAt 1 6, true, false⟩) (benchProof 2000000) ladder3 =
      Exec.ret { freshShare with status := StratumStatus.SOLVED } ∧
    checkAndUpdateShare heightPrimitives plainServer zeroMemory { freshShare with height := 6 }
        (some ⟨jobAt 1 6, true, false⟩) (benchProof 2000000) ladder3 =
      Exec.ret { freshShare with height := 6, status := StratumStatus.LOW_DIFFICULTY } := by
  decide

/-- C19 as amended.  The share difficulty that decides the verdict is `PowDifficultyGrin`
at the height carried by the share, applied to the pre-proof built by lines 58-61, and the
height of the job plays no part: the call gives the same result against the same handle
with any other job height. -/
theorem checkAndUpdateShare_uses_share_height (P : Primitives) (srv : StratumServerGrin)
    (after : Nat → Nat) (share : ShareGrin) (ex : StratumJobEx) (proofs : List Nat)
    (jobDiffs : StdSet) (h : Nat) :
    (∀ preProof, buildPreProof P after share ex.sjob_ = Exec.ret preProof →
        shareDiffOf P after share ex.sjob_ proofs =
          P.PowDifficultyGrin share.height share.edgebits
            (P.secondaryScaling preProof.prePow) proofs) ∧
      checkAndUpdateShare P srv after share
          (some { ex with sjob_ := { ex.sjob_ with height_ := h } }) proofs jobDiffs =
        checkAndUpdateShare P srv after share (some ex) proofs jobDiffs := by
  refine ⟨?_, rfl⟩
  intro preProof hb
  unfold shareDiffOf
  rw [hb]
  rfl

/-- C20 (high-difficulty observation).  For a fresh handle whose job has a network
difficulty of at least 1 and a share whose proof verifies, the condition of the
"high diff share" line holds exactly when the share difficulty is at least 1024 times the
network difficulty, the product being taken in the natural numbers; when it holds the
call returns the share with status `SOLVED`; and in every case the result is given by the
SOLVED rule and the ladder scan, which do not consult the condition. -/
theorem checkAndUpdateShare_high_diff (P : Primitives) (srv : StratumServerGrin)
    (after : Nat → Nat) (share : ShareGrin) (ex : StratumJobEx) (proofs : List Nat)
    (jobDiffs : StdSet) (hfresh : ex.isStale = false) (hdiff : 1 ≤ ex.sjob_.difficulty_)
    (hverify : proofVerifies P after share ex.sjob_ proofs = true) :
    (highDiffShare (shareDiffOf P after share ex.sjob_ proofs) ex.sjob_.difficulty_ = true ↔
        shareDiffOf P after share ex.sjob_ proofs ≥ 1024 * ex.sjob_.difficulty_) ∧
      (highDiffShare (shareDiffOf P after share ex.sjob_ proofs) ex.sjob_.difficulty_ = true →
        checkAndUpdateShare P srv after share (some ex) proofs jobDiffs =
          Exec.ret { share with status := StratumStatus.SOLVED }) ∧
      checkAndUpdateShare P srv after share (some ex) proofs jobDiffs =
        Exec.ret
          (if srv.isSubmitInvalidBlock_ ||
              decide (shareDiffOf P after share ex.sjob_ proofs ≥ ex.sjob_.difficulty_) then
            share.set_status StratumStatus.SOLVED
          else
            scanLadder srv.isEnableSimulator_ (shareDiffOf P after share ex.sjob_ proofs) share
              jobDiffs.rbegin_rend) := by
  have hne : ex.sjob_.difficulty_ ≠ 0 := by omega
  have hpos : 0 < ex.sjob_.difficulty_ := by omega
  have hiff : highDiffShare (shareDiffOf P after share ex.sjob_ proofs) ex.sjob_.difficulty_ =
      true ↔ shareDiffOf P after share ex.sjob_ proofs ≥ 1024 * ex.sjob_.difficulty_ := by
    unfold highDiffShare
    rw [decide_eq_true_iff]
    exact Nat.le_div_iff_mul_le hpos
  have hres : checkAndUpdateShare P srv after share (some ex) proofs jobDiffs =
      Exec.ret
        (if srv.isSubmitInvalidBlock_ ||
            decide (shareDiffOf P after share ex.sjob_ proofs ≥ ex.sjob_.difficulty_) then
          share.set_status StratumStatus.SOLVED
        else
          scanLadder srv.isEnableSimulator_ (shareDiffOf P after share ex.sjob_ proofs) share
            jobDiffs.rbegin_rend) := by
    rw [checkAndUpdateShare_verified P srv after share ex proofs jobDiffs hfresh hverify,
      if_neg hne]
    split <;> rfl
  refine ⟨hiff, ?_, hres⟩
  intro hhigh
  have hge : shareDiffOf P after share ex.sjob_ proofs ≥ ex.sjob_.difficulty_ := by
    have := hiff.mp hhigh
    omega
  rw [hres]
  simp [hge, ShareGrin.set_status]

/-- Witness of C20: share difficulty 2,000,000 against network difficulty 1,000. -/
theorem checkAndUpdateShare_high_diff_witness :
    (highDiffShare
          (shareDiffOf benchPrimitives zeroMemory freshShare (benchJob 1000) (benchProof 2000000))
          (benchJob 1000).difficulty_ = true ↔
        shareDiffOf benchPrimitives zeroMemory freshShare (benchJob 1000) (benchProof 2000000) ≥
          1024 * (benchJob 1000).difficulty_) ∧
      (highDiffShare
          (shareDiffOf benchPrimitives zeroMemory freshShare (benchJob 1000) (benchProof 2000000))
          (benchJob 1000).difficulty_ = true →
        checkAndUpdateShare benchPrimitives plainServer zeroMemory freshShare
            (some ⟨benchJob 1000, true, false⟩) (benchProof 2000000) ladder3 =
          Exec.ret { freshShare with status := StratumStatus.SOLVED }) ∧
      checkAndUpdateShare benchPrimitives plainServer zeroMemory freshShare
          (some ⟨benchJob 1000, true, false⟩) (benchProof 2000000) ladder3 =
        Exec.ret
          (if plainServer.isSubmitInvalidBlock_ ||
              decide (shareDiffOf benchPrimitives zeroMemory freshShare (benchJob 1000)
                (benchProof 2000000) ≥ (benchJob 1000).difficulty_) then
            freshShare.set_status StratumStatus.SOLVED
          else
            scanLadder plainServer.isEnableSimulator_
              (shareDiffOf benchPrimitives zeroMemory freshShare (benchJob 1000)
                (benchProof 2000000)) freshShare ladder3.rbegin_rend) :=
  checkAndUpdateShare_high_diff benchPrimitives plainServer zeroMemory freshShare
    ⟨benchJob 1000, true, false⟩ (benchProof 2000000) ladder3 rfl (by decide) (by decide)

/-- The condition of the "high diff share" line, evaluated at the boundary for network
difficulty 1,000: it fails at 1,023,999 and holds at 1,024,000. -/
theorem highDiffShare_examples :
    highDiffShare 1023999 1000 = false ∧ highDiffShare 1024000 1000 = true := by
  decide

end Grin
